import Mathlib

/-!
Verification of the Perp repository (wstat.py / wstat2.py), a read-only
status reporter for Parsl workflow monitoring databases.

The development shallowly embeds the reporting core of the two scripts:

* the status-matrix tally of `pmon.printStatusMatrix` (wstat.py) and
  `pmon.taskStatusMatrix` (wstat2.py),
* the run index of `pmon.readWorkflowTable` / `pmon.loadWorkflowTable`
  and run resolution via `pmon.selectRunID`,
* the row filters of `pmon.getTaskData` (wstat.py) and `pmon.taskSum`
  (wstat2.py), together with the named status presets,
* the duration arithmetic of `pmon.timeDiff` and the SQL NULL
  propagation of wstat2's `waitTime` / `runTime` expressions,
* the warning-capped missing-runtime scan of `pmon.plotStats`,
* the node-usage tally inside `pmon.getTaskData`,
* the `ORDER BY` contract of the task-history queries.

Python dictionaries are modelled as association lists that preserve
insertion order (an update rewrites the first binding in place, a fresh
key is appended at the end, exactly as a Python `dict` behaves); a lookup
reads the first binding of the key.  Python runtime errors (`KeyError`,
`IndexError`, a failed `assert`) are modelled by `Option`/`none`:
a `none` result means the script dies with an uncaught exception.
Timestamps are modelled as naturals (seconds); SQL `NULL` is `none`.
-/

/-- Lookup in an insertion-ordered association list: first binding wins
(the model of reading a Python `dict`). -/
def dictLookup {α β : Type} [BEq α] (d : List (α × β)) (k : α) : Option β :=
  (d.find? (fun p => p.1 == k)).map (fun p => p.2)

/-- Sum of all values of a `String`-keyed tally dictionary. -/
def dictSum (d : List (String × Nat)) : Nat :=
  (d.map (fun p => p.2)).sum

/-- The model of `d[k] = 1 if k not in d else d[k] + 1` on a Python dict:
the first binding of `k` is incremented in place, a missing key is
appended with count 1 (insertion order preserved). -/
def bump : List (String × Nat) → String → List (String × Nat)
  | [], k => [(k, 1)]
  | (k0, v) :: rest, k =>
    if k0 == k then (k0, v + 1) :: rest else (k0, v) :: bump rest k

/-- The model of `d[k] = v` on a Python dict: overwrite the first binding
in place, or append the key at the end if it is new. -/
def dictSet {β : Type} : List (String × β) → String → β → List (String × β)
  | [], k, v => [(k, v)]
  | (k0, v0) :: rest, k, v =>
    if k0 == k then (k0, v) :: rest else (k0, v0) :: dictSet rest k v

/-- Whether the first character list is a prefix of the second. -/
def isPrefixChars : List Char → List Char → Bool
  | [], _ => true
  | _ :: _, [] => false
  | a :: as, b :: bs => a == b && isPrefixChars as bs

/-- Whether the first character list occurs contiguously in the second. -/
def containsChars (needle : List Char) : List Char → Bool
  | [] => needle.isEmpty
  | b :: bs => isPrefixChars needle (b :: bs) || containsChars needle bs

/-- Python's substring test `needle in hay` on strings (an empty needle is
always contained). -/
def substrOf (needle hay : String) : Bool :=
  containsChars needle.toList hay.toList

/-- Task state vocabulary of wstat.py (`pmon.__init__`, `self.statList`,
line 44). -/
def statList1 : List String :=
  ["pending", "launched", "joining", "running", "unsched", "unknown",
   "exec_done", "memo_done", "failed", "dep_fail", "fail_retryable"]

/-- Task state vocabulary of wstat2.py (`pmon.__init__`, `self.statList`,
line 85). -/
def statList2 : List String :=
  ["pending", "launched", "running", "joining", "running_ended", "unsched",
   "unknown", "exec_done", "memo_done", "failed", "dep_fail", "fail_retryable"]

/-- Status presets of wstat.py (`pmon.__init__`, `self.statPresets`,
lines 53-58). -/
def statPresets1 : List (String × List String) :=
  [("notdone", ["pending", "launched", "running"]),
   ("runz", ["running", "exec_done", "memo_done", "failed", "dep_fail",
             "fail_retryable"]),
   ("dead", ["exec_done", "memo_done", "failed", "dep_fail", "fail_retryable"]),
   ("oddball", ["unsched", "unknown"])]

/-- Status presets of wstat2.py (`pmon.__init__`, `self.statPresets`,
lines 93-98). -/
def statPresets2 : List (String × List String) :=
  [("notdone", ["pending", "launched", "running"]),
   ("runz", ["running", "joining", "running_ended", "exec_done", "memo_done",
             "failed", "dep_fail", "fail_retryable"]),
   ("dead", ["exec_done", "memo_done", "failed", "dep_fail", "fail_retryable"]),
   ("oddball", ["unsched", "unknown"])]

/-- Modelled from the spec: the named preset sets exactly as §3 of the
spec lists them (`notdone`, `runz`, `dead`, `oddball`).  Declared
separately from `statPresets1`/`statPresets2` so the source constants can
be compared against the spec's words. -/
def specPresets : List (String × List String) :=
  [("notdone", ["pending", "launched", "running"]),
   ("runz", ["running", "joining", "running_ended", "exec_done", "memo_done",
             "failed", "dep_fail", "fail_retryable"]),
   ("dead", ["exec_done", "memo_done", "failed", "dep_fail", "fail_retryable"]),
   ("oddball", ["unsched", "unknown"])]

/-- One row of the status matrix: an insertion-ordered tally dictionary
(`dict(self.statTemplate)` plus the `TOTAL` key). -/
abbrev StatRow := List (String × Nat)

/-- The status matrix `taskStats`: task-type name to tally row. -/
abbrev StatMatrix := List (String × StatRow)

/-- The zero-initialized template row `dict(self.statTemplate)` followed
by `row['TOTAL'] = 0` (wstat.py lines 47-50 and 499-500). -/
def mkStatTemplate (statList : List String) : StatRow :=
  statList.map (fun s => (s, 0)) ++ [("TOTAL", 0)]

/-- The model of `row[k] += 1` on a Python dict: increment the first
binding of `k` in place, and fail (KeyError) when `k` is absent. -/
def incr? : StatRow → String → Option StatRow
  | [], _ => none
  | (k0, v) :: rest, k =>
    if k0 == k then some ((k0, v + 1) :: rest)
    else (incr? rest k).map (fun r => (k0, v) :: r)

/-- One task's contribution to its tally row:
`taskStats[tName][tStat] += 1` then `taskStats[tName]['TOTAL'] += 1`
(wstat.py lines 502-503, wstat2.py lines 441-442). -/
def rowIncr (s : String) (row : StatRow) : Option StatRow := do
  let r1 ← incr? row s
  incr? r1 ("TOTAL")

/-- Apply `f` to the tally row of task type `t` inside the matrix,
creating the row from the template first when `t` has not been seen
(wstat.py lines 497-501). -/
def matIncr (template : StatRow) : StatMatrix → String → (StatRow → Option StatRow) → Option StatMatrix
  | [], t, f => (f template).map (fun r => [(t, r)])
  | (k0, row) :: rest, t, f =>
    if k0 == t then (f row).map (fun r => (k0, r) :: rest)
    else (matIncr template rest t f).map (fun m => (k0, row) :: m)

/-- One loop iteration of the status-matrix tally over `(tName, tStat)`:
update the task type's row and the running column totals `statTotals`
(wstat.py lines 493-506, wstat2.py lines 432-445). -/
def tallyStep (template : StatRow) (acc : StatMatrix × StatRow) (r : String × String) : Option (StatMatrix × StatRow) := do
  let m ← matIncr template acc.1 r.1 (rowIncr r.2)
  let t ← rowIncr r.2 acc.2
  return (m, t)

/-- The status-matrix tally of `pmon.printStatusMatrix` (wstat.py lines
484-507) and `pmon.taskStatusMatrix` (wstat2.py lines 425-446): a single
pass over the `(task name, status)` rows, finished by
`taskStats['TOTAL'] = dict(statTotals)`.  `none` models the script dying
with an uncaught `KeyError` on a status outside the vocabulary. -/
def taskStatusMatrix (statList : List String) (rows : List (String × String)) : Option StatMatrix := do
  let (m, totals) ← rows.foldlM (tallyStep (mkStatTemplate statList)) ([], mkStatTemplate statList)
  return dictSet m ("TOTAL") totals

/-- Read one cell of a tally row (0 when the column is absent). -/
def cell (row : StatRow) (s : String) : Nat :=
  (dictLookup row s).getD 0

/-- Sum of the state columns of one tally row (the `TOTAL` column is not
a state column). -/
def rowStateSum (statList : List String) (row : StatRow) : Nat :=
  (statList.map (cell row)).sum

/-- The task-type rows of the finished matrix: every index entry except
the `TOTAL` row. -/
def typeRows (m : StatMatrix) : StatMatrix :=
  m.filter (fun p => p.1 != "TOTAL")

/-- The `TOTAL` row of the finished matrix. -/
def totalRowOf (m : StatMatrix) : StatRow :=
  (dictLookup m ("TOTAL")).getD []

/-- Sum of one state column over all task-type rows. -/
def colSum (m : StatMatrix) (s : String) : Nat :=
  ((typeRows m).map (fun p => cell p.2 s)).sum

/-- Sum of all per-type per-state cells of the matrix. -/
def allCellSum (statList : List String) (m : StatMatrix) : Nat :=
  ((typeRows m).map (fun p => rowStateSum statList p.2)).sum

/-- The Status Aggregator invariant claimed by the spec for a matrix
built from `n` input rows: all cells sum to the grand total which equals
`n`; each task-type row's `TOTAL` equals the sum of its state counts; and
each state column's bottom total equals that column's sum over the
task-type rows. -/
def matrixInvariant (statList : List String) (m : StatMatrix) (n : Nat) : Prop :=
  allCellSum statList m = cell (totalRowOf m) ("TOTAL") ∧
  cell (totalRowOf m) ("TOTAL") = n ∧
  (∀ p ∈ typeRows m, cell p.2 ("TOTAL") = rowStateSum statList p.2) ∧
  (∀ s ∈ statList, cell (totalRowOf m) s = colSum m s)

instance (statList : List String) (m : StatMatrix) (n : Nat) : Decidable (matrixInvariant statList m n) := by
  unfold matrixInvariant
  infer_instance

/-- A row of the `workflow` table as wstat.py reads it (`run_id` and the
`rundir` path; the rows arrive already ordered by `time_began` ascending,
which the list order represents). -/
structure WRow where
  run_id : String
  rundir : String
deriving DecidableEq, Repr

/-- Helper for `basename`: restart the accumulator at every `/`. -/
def basenameAux (acc : List Char) : List Char → List Char
  | [] => acc.reverse
  | c :: r => if c == '/' then basenameAux [] r else basenameAux (c :: acc) r

/-- Python's `os.path.basename`: the part of the path after the last
separator. -/
def basename (s : String) : String :=
  ⟨basenameAux [] s.toList⟩

/-- The decimal value of a digit character, `none` otherwise. -/
def digitVal? (c : Char) : Option Nat :=
  if '0' ≤ c ∧ c ≤ '9' then some (c.toNat - 48) else none

/-- Helper for `parseNat?`: accumulate decimal digits. -/
def parseNatAux (acc : Nat) : List Char → Option Nat
  | [] => some acc
  | c :: r =>
    match digitVal? c with
    | none => none
    | some d => parseNatAux (acc * 10 + d) r

/-- Python's `int(s)` restricted to unsigned decimals: all-digit strings
parse, anything else (including the empty string) raises. -/
def parseNat? (s : String) : Option Nat :=
  match s.toList with
  | [] => none
  | l => parseNatAux 0 l

/-- The run number wstat.py derives for a workflow row:
`int(os.path.basename(row['rundir']))` (line 203).  `none` models the
script dying on a rundir whose basename is not a number. -/
def runNumOf (r : WRow) : Option Int :=
  (parseNat? (basename r.rundir)).map (fun n => (n : Int))

/-- The run-index state built by `pmon.readWorkflowTable`:
`runid2num` (run_id to the rundir basename string), `runnum2id`
(integer run number to run_id), the extremes, and `numRuns`. -/
structure WfState where
  runid2num : List (String × String)
  runnum2id : List (Int × String)
  runmin : Int
  runmax : Int
  numRuns : Nat
deriving DecidableEq, Repr

/-- The run-index state as `pmon.__init__` initializes it (wstat.py lines
61-67): `runmin = 999999999`, `runmax = -1`. -/
def initWfState : WfState :=
  { runid2num := [], runnum2id := [], runmin := 999999999, runmax := -1, numRuns := 0 }

/-- One iteration of the `for row in self.wrows` loop of
`pmon.readWorkflowTable` (wstat.py lines 201-208). -/
def readWorkflowStep (st : WfState) (r : WRow) : Option WfState :=
  (runNumOf r).map (fun n =>
    { runid2num := (r.run_id, basename r.rundir) :: st.runid2num,
      runnum2id := (n, r.run_id) :: st.runnum2id,
      runmin := if n < st.runmin then n else st.runmin,
      runmax := if n > st.runmax then n else st.runmax,
      numRuns := st.numRuns })

/-- `pmon.readWorkflowTable` (wstat.py lines 186-217): fold the workflow
rows (already in ascending `time_began` order) into the run index and set
`numRuns`. -/
def readWorkflowTable (wrows : List WRow) : Option WfState :=
  (wrows.foldlM readWorkflowStep initWfState).map
    (fun st => { st with numRuns := wrows.length })

/-- Python list indexing `l[i]`, negative indices counting from the end;
`none` models an uncaught `IndexError`. -/
def pyIdx {α : Type} (l : List α) (i : Int) : Option α :=
  let j : Int := if i < 0 then i + l.length else i
  if h : 0 ≤ j ∧ j < l.length then
    some (l.get ⟨j.toNat, by omega⟩)
  else
    none

/-- The `for rdx in list(range(len(self.wrows)))` scan of
`pmon.selectRunID`: the first row index whose `run_id` matches, `none`
when the loop falls through to `assert False`. -/
def findRunRow (rid : String) : List WRow → Option Nat
  | [] => none
  | r :: rest =>
    if r.run_id == rid then some 0 else (findRunRow rid rest).map (fun i => i + 1)

/-- `pmon.selectRunID` (wstat.py lines 220-237, wstat2.py lines 382-399):
`None` selects the most recent run as index `-1`; a specific number is
translated through `runnum2id` (a `KeyError` and the final
`assert False` are both `none`) and looked up by a linear scan for the
matching `run_id`. -/
def selectRunID (wrows : List WRow) (runnum2id : List (Int × String)) (runnum : Option Int) : Option Int :=
  match runnum with
  | none => some (-1)
  | some n =>
    match dictLookup runnum2id n with
    | none => none
    | some rid => (findRunRow rid wrows).map (fun i => (i : Int))

/-- The caller pattern `rowindex = self.selectRunID(runnum);
row = self.wrows[rowindex]` shared by `printWorkflowSummary` (wstat.py
lines 247-248, wstat2.py lines 342-343) and `getTaskData` (wstat.py lines
310-311). -/
def resolveRun (wrows : List WRow) (st : WfState) (runnum : Option Int) : Option WRow := do
  let i ← selectRunID wrows st.runnum2id runnum
  pyIdx wrows i

/-- Outcome of the `__main__` run-number validity check. -/
inductive MainResult where
  | runNotFound : MainResult
  | report : Option Int → MainResult
deriving DecidableEq, Repr

/-- The `__main__` guard of both scripts (wstat.py lines 967-970,
wstat2.py lines 711-714): a requested run number outside
`[runmin, runmax]` is reported as an error with `sys.exit(1)` before any
report function - and hence any task-level query - runs. -/
def wstatMain (st : WfState) (runnum : Option Int) : MainResult :=
  match runnum with
  | none => MainResult.report none
  | some n =>
    if n > st.runmax || n < st.runmin then MainResult.runNotFound
    else MainResult.report (some n)

/-- The consecutive integers `a, a+1, ..., a+n-1`: the shape the spec
asserts for run numbers ("strictly increasing, gapless"). -/
def consecFrom (a : Int) : Nat → List Int
  | 0 => []
  | n + 1 => a :: consecFrom (a + 1) n

/-- A row of wstat2's `runview` view: a sequential run number paired with
the opaque `run_id`. -/
structure WRow2 where
  runnum : Int
  run_id : String
deriving DecidableEq, Repr

/-- Helper for `runview`: number the runs consecutively starting at `k`. -/
def runviewFrom (k : Int) : List String → List WRow2
  | [] => []
  | id :: rest => ⟨k, id⟩ :: runviewFrom (k + 1) rest

/-- Modelled from the spec: the `runview` SQL view used by wstat2.py is
defined in `makeViews.sql`, which is not part of the repository; per the
spec (§4.2) it assigns each Run the run number
`1 + (ordinal position in ascending start-time order)` counted from 1. -/
def runview (ids : List String) : List WRow2 :=
  runviewFrom 1 ids

/-- The run-index state built by wstat2's `pmon.loadWorkflowTable`
(`runid2num` maps run_id to the integer `runnum` of `runview`). -/
structure WfState2 where
  runid2num : List (String × Int)
  runnum2id : List (Int × String)
  runmin : Int
  runmax : Int
  numRuns : Nat
deriving DecidableEq, Repr

/-- One iteration of the `for row in self.wrows` loop of
`pmon.loadWorkflowTable` (wstat2.py lines 313-321). -/
def loadWorkflowStep2 (st : WfState2) (r : WRow2) : WfState2 :=
  { runid2num := (r.run_id, r.runnum) :: st.runid2num,
    runnum2id := (r.runnum, r.run_id) :: st.runnum2id,
    runmin := if r.runnum < st.runmin then r.runnum else st.runmin,
    runmax := if r.runnum > st.runmax then r.runnum else st.runmax,
    numRuns := st.numRuns }

/-- `pmon.loadWorkflowTable` (wstat2.py lines 288-330): fold the joined
workflow x runview rows (ascending `time_began`) into the run index. -/
def loadWorkflowTable2 (rows : List WRow2) : WfState2 :=
  { rows.foldl loadWorkflowStep2
      { runid2num := [], runnum2id := [], runmin := 999999999, runmax := -1, numRuns := 0 } with
    numRuns := rows.length }

/-- One denormalized Summary-mode task row as `pmon.getTaskData` reads it
(wstat.py lines 330-338, 412-424): the fields the loop body consumes.
Timestamps are seconds; a SQL `NULL` is `none`. -/
structure TRow where
  task_id : Nat
  task_func_name : String
  status : String
  hostname : Option String
  launched : Option Nat
  running : Option Nat
  returned : Option Nat
deriving DecidableEq, Repr

/-- The inner preset scan of the status filter (wstat.py lines 384-389):
`for prekey in self.statPresets: if taskStatus == prekey and
row['task_status_name'] in self.statPresets[prekey]: keep = True; break`. -/
def presetKeepLoop (presets : List (String × List String)) (f st : String) : Bool :=
  match presets with
  | [] => false
  | (k, l) :: rest =>
    if f == k && l.contains st then true else presetKeepLoop rest f st

/-- The status filter of `pmon.getTaskData` (wstat.py lines 380-394):
a filter value that is a preset name selects by preset membership, any
other value is tested with `taskStatus in row['task_status_name']` -
Python's substring containment, not equality. -/
def statusKeep (presets : List (String × List String)) (f st : String) : Bool :=
  if presets.any (fun p => p.1 == f) then presetKeepLoop presets f st
  else substrOf f st

/-- Modelled from the spec: the status filter as claim C4 states it -
a preset name selects by membership in the preset's state set, any other
value by exact string equality. -/
def specStatusMatch (presets : List (String × List String)) (f st : String) : Bool :=
  match dictLookup presets f with
  | some l => l.contains st
  | none => f == st

/-- The complete row filter a Summary-mode task row passes in
`pmon.getTaskData`: the SQL `where` clause on `t.task_id` and
`t.task_func_name` (wstat.py lines 319-326) combined with the Python-side
status filter (lines 380-394); absent filters always pass. -/
def keepRow (taskID : Option Nat) (taskName : Option String) (taskStatus : Option String) (r : TRow) : Bool :=
  (match taskID with | none => true | some i => r.task_id == i) &&
  (match taskName with | none => true | some nm => r.task_func_name == nm) &&
  (match taskStatus with | none => true | some s => statusKeep statPresets1 s r.status)

/-- One row of wstat2's `summary` view as `pmon.taskSum` filters it. -/
structure SumRow where
  runnum : Int
  tasknum : Nat
  task_id : Nat
  function : String
  status : String
deriving DecidableEq, Repr

/-- The `whereList` built by `pmon.taskSum` (wstat2.py lines 477-484),
one SQL equality condition per supplied filter, read as row predicates. -/
def taskSumWhere (runnum : Option Int) (tasknum taskid : Option Nat) (taskname status : Option String) : List (SumRow → Bool) :=
  (match runnum with | none => [] | some v => [fun row => row.runnum == v]) ++
  (match tasknum with | none => [] | some v => [fun row => row.tasknum == v]) ++
  (match taskid with | none => [] | some v => [fun row => row.task_id == v]) ++
  (match taskname with | none => [] | some v => [fun row => row.function == v]) ++
  (match status with | none => [] | some v => [fun row => row.status == v])

/-- Whether a `summary` row satisfies `pmon.taskSum`'s composed
`where ... and ...` clause (wstat2.py line 484): the conjunction of the
collected equality conditions. -/
def sumRowKeep (runnum : Option Int) (tasknum taskid : Option Nat) (taskname status : Option String) (row : SumRow) : Bool :=
  (taskSumWhere runnum tasknum taskid taskname status).all (fun c => c row)

/-- `pmon.timeDiff` (wstat.py lines 101-105): the difference of two Parsl
timestamps, `None` when either endpoint is `None`. -/
def timeDiff (start stop : Option Nat) : Option Int :=
  match start, stop with
  | some s, some e => some ((e : Int) - (s : Int))
  | _, _ => none

/-- The SQL `NULL` propagation of wstat2's `waitTime` / `runTime`
expressions (wstat2.py lines 40-44):
`time((julianday(t2)-julianday(t1))*86400,'unixepoch')` is `NULL` when
either timestamp is `NULL`, since `julianday(NULL)` is `NULL` and
arithmetic on `NULL` stays `NULL`. -/
def julianDelta (t1 t2 : Option Nat) : Option Int :=
  match t1, t2 with
  | some a, some b => some ((b : Int) - (a : Int))
  | _, _ => none

/-- The accumulator of the `pmon.plotStats` tally loop (wstat.py lines
552-578): counters plus the per-task-type runtime histogram data.
`nWarnLines` counts the `%ERROR` lines actually printed. -/
structure PlotAcc where
  nTasks : Nat
  nDone : Nat
  nErrors : Nat
  nWarnLines : Nat
  histData : List (String × List Int)
deriving DecidableEq, Repr

/-- `histData[tName] = [rt]` / `histData[tName].append(rt)` (wstat.py
lines 571-576). -/
def histAdd : List (String × List Int) → String → Int → List (String × List Int)
  | [], k, x => [(k, [x])]
  | (k0, l) :: rest, k, x =>
    if k0 == k then (k0, l ++ [x]) :: rest else (k0, l) :: histAdd rest k x

/-- One iteration of the `for task in self.pTasks` loop of
`pmon.plotStats` (wstat.py lines 556-578): count the task; when its
status contains `done`, either record its runtime or count a missing
runtime, printing the `%ERROR` warning only while `nErrors < 10` and the
one `Too many` line at `nErrors == 10`. -/
def plotStep (acc : PlotAcc) (r : TRow) : PlotAcc :=
  let acc := { acc with nTasks := acc.nTasks + 1 }
  if substrOf ("done") r.status then
    let acc := { acc with nDone := acc.nDone + 1 }
    match timeDiff r.running r.returned with
    | none =>
      let e := acc.nErrors + 1
      { acc with nErrors := e,
                 nWarnLines := acc.nWarnLines + (if e ≤ 10 then 1 else 0) }
    | some rt => { acc with histData := histAdd acc.histData r.task_func_name rt }
  else acc

/-- The whole tally loop of `pmon.plotStats` (wstat.py lines 547-578). -/
def plotStatsScan (tasks : List TRow) : PlotAcc :=
  tasks.foldl plotStep { nTasks := 0, nDone := 0, nErrors := 0, nWarnLines := 0, histData := [] }

/-- Number of runtimes recorded in the histogram data. -/
def histCount (h : List (String × List Int)) : Nat :=
  (h.map (fun p => p.2.length)).sum

/-- The key under which a running task is counted in `nodeUsage`:
its hostname, or the literal `unknown` when the hostname is `None`
(wstat.py lines 430-434). -/
def hostKey (r : TRow) : String :=
  r.hostname.getD "unknown"

/-- The mutable state of the `for row in tRowz` loop of
`pmon.getTaskData` (wstat.py lines 373-447): the node-usage dictionary,
the running-task counter, the kept-row counter and the accumulated
`pTasks` list.  (`self.nodeUsage` and `self.pTasks` start empty in
`pmon.__init__`; `nRunning` starts at 0 in each call.) -/
structure ScanState where
  nodeUsage : List (String × Nat)
  nRunning : Nat
  grCount : Nat
  pTasks : List TRow
deriving DecidableEq, Repr

/-- The state at the start of a `getTaskData` call on a fresh `pmon`. -/
def initScanState : ScanState :=
  { nodeUsage := [], nRunning := 0, grCount := 0, pTasks := [] }

/-- The `for row in tRowz` loop of `pmon.getTaskData` (wstat.py lines
373-447): drop rows failing the filters, then count kept `running` rows
into `nRunning` and `nodeUsage[hostKey]`, append the row to `pTasks`, and
stop early when `taskLimit` is positive and reached. -/
def getTaskDataLoop (taskLimit : Nat) (taskID : Option Nat) (taskName taskStatus : Option String) : List TRow → ScanState → ScanState
  | [], st => st
  | r :: rs, st =>
    if keepRow taskID taskName taskStatus r then
      let st1 : ScanState :=
        { nodeUsage := if r.status == "running" then bump st.nodeUsage (hostKey r) else st.nodeUsage,
          nRunning := if r.status == "running" then st.nRunning + 1 else st.nRunning,
          grCount := st.grCount + 1,
          pTasks := st.pTasks ++ [r] }
      if 0 < taskLimit ∧ taskLimit ≤ st1.grCount then st1
      else getTaskDataLoop taskLimit taskID taskName taskStatus rs st1
    else getTaskDataLoop taskLimit taskID taskName taskStatus rs st

/-- The node-usage bookkeeping invariant of a `getTaskData` scan state:
every `nodeUsage` entry counts exactly the kept rows whose status is the
literal `running` under that host key (rows with an absent host under
`unknown`), the entries sum to `nRunning`, `nRunning` counts the kept
running rows, and every accumulated row passed the filters. -/
def scanInv (taskID : Option Nat) (taskName taskStatus : Option String) (st : ScanState) : Prop :=
  (∀ k : String,
    dictLookup st.nodeUsage k =
      (if st.pTasks.countP (fun r => r.status == "running" && hostKey r == k) = 0 then none
       else some (st.pTasks.countP (fun r => r.status == "running" && hostKey r == k)))) ∧
  dictSum st.nodeUsage = st.nRunning ∧
  st.nRunning = st.pTasks.countP (fun r => r.status == "running") ∧
  st.pTasks.all (keepRow taskID taskName taskStatus) = true

/-- One History-mode result row: the columns the `ORDER BY` clause of the
task-history queries sorts on (wstat.py line 362 `order by
t.task_id,s.timestamp asc`; wstat2.py line 56 `order by s.timestamp asc`
under a fixed `tasknum`). -/
structure HRow where
  tasknum : Nat
  timestamp : Nat
deriving DecidableEq, Repr

/-- The lexicographic key `(task_id, timestamp)` of the History-mode
`ORDER BY`. -/
def histLe (a b : HRow) : Prop :=
  a.tasknum < b.tasknum ∨ (a.tasknum = b.tasknum ∧ a.timestamp ≤ b.timestamp)

instance : DecidableRel histLe := fun a b => by
  unfold histLe
  infer_instance

/-- The History-mode result set as delivered by SQL: the joined rows
sorted by `(task_id, timestamp)` ascending. -/
def orderTaskHistory (rows : List HRow) : List HRow :=
  List.insertionSort histLe rows

/-- Input row set exhibiting the `TOTAL` name collision in the status
matrix: one task whose type name is the literal `TOTAL`. -/
def cexTotalRows : List (String × String) :=
  [("TOTAL", "pending")]

/-- The spec's §8 scenario row set: three tasks of type `add` with
statuses `exec_done, exec_done, failed`. -/
def addRows : List (String × String) :=
  [("add", "exec_done"), ("add", "exec_done"), ("add", "failed")]

/-- Input row set with one status outside the fixed vocabulary. -/
def bogusRows : List (String × String) :=
  [("myTask", "bogus")]

/-- A two-run workflow table with rundirs `runinfo/1`, `runinfo/2` in
ascending `time_began` order. -/
def wRowsA : List WRow :=
  [⟨"run-id-a", "runinfo/1"⟩, ⟨"run-id-b", "runinfo/2"⟩]

/-- The run-index state `readWorkflowTable` builds from `wRowsA`. -/
def wStA : WfState :=
  { runid2num := [("run-id-b", "2"), ("run-id-a", "1")],
    runnum2id := [(2, "run-id-b"), (1, "run-id-a")],
    runmin := 1, runmax := 2, numRuns := 2 }

/-- A workflow table whose rundir numbers run backwards relative to
`time_began` order. -/
def wRowsBad : List WRow :=
  [⟨"idA", "runinfo/002"⟩, ⟨"idB", "runinfo/001"⟩]

/-- Auxiliary: `find?` over an append searches the left list first. -/
theorem find?_append_or {α : Type} (p : α → Bool) :
    ∀ (l1 l2 : List α), (l1 ++ l2).find? p = ((l1.find? p).orElse (fun _ => l2.find? p))
  | [], l2 => by simp [Option.orElse]
  | a :: l1, l2 => by
    cases h : p a with
    | true => simp [List.find?_cons, h, Option.orElse]
    | false => simp [List.find?_cons, h, Option.orElse, find?_append_or p l1 l2]

/-- C2: the claim says a status value outside the fixed vocabulary must
still be counted (under an `unknown` bucket), be surfaced as a warning,
and let the report complete.  The code instead dies: on such a row,
`taskStats[tName][tStat] += 1` raises an uncaught `KeyError` in both
`printStatusMatrix` (wstat.py line 502) and `taskStatusMatrix`
(wstat2.py line 441), so no matrix is produced at all - here, the tally
of a one-row set with status `bogus` evaluates to `none` (the model of
the uncaught exception) for both scripts' vocabularies. -/
theorem C2_unknown_status_crashes :
    taskStatusMatrix statList1 bogusRows = none ∧
    taskStatusMatrix statList2 bogusRows = none := by decide

/-- C1 counterexample: the claimed matrix invariant fails on the row set
`[("TOTAL", "pending")]` - a single task whose type name is the literal
`TOTAL`.  The tally succeeds, but the final
`taskStats['TOTAL'] = dict(statTotals)` overwrites that task type's row,
so the surviving matrix has no task-type rows while its `TOTAL.TOTAL`
cell is 1: the cells no longer sum to the grand total. -/
theorem C1_counterexample :
    (taskStatusMatrix statList1 cexTotalRows).isSome ∧
    ¬ matrixInvariant statList1
        ((taskStatusMatrix statList1 cexTotalRows).getD []) cexTotalRows.length := by
  decide

/-- C4 counterexample: the claim says a status filter value that is not a
preset name keeps a row exactly when it equals the row's status.  In
`pmon.getTaskData` (wstat.py line 390) the test is
`taskStatus in row['task_status_name']` - substring containment - so the
non-preset filter value `done` keeps a row whose status is `exec_done`,
although the two strings differ; the spec-modelled exact-equality filter
rejects it. -/
theorem C4_counterexample :
    statusKeep statPresets1 ("done") ("exec_done") = true ∧
    specStatusMatch statPresets1 ("done") ("exec_done") = false ∧
    keepRow none none (some ("done"))
      { task_id := 7, task_func_name := "add", status := "exec_done",
        hostname := none, launched := none, running := none, returned := none } = true := by
  decide

/-- C5 counterexample: the claim says both scripts' presets are exactly
the spec's sets.  wstat.py's `runz` preset (line 55) omits `joining`
(and `running_ended`), which the spec's `runz` contains, so
`statPresets1` differs from the spec's presets. -/
theorem C5_counterexample :
    "joining" ∉ (dictLookup statPresets1 ("runz")).getD [] ∧
    (dictLookup statPresets1 ("runz")).isSome ∧
    "joining" ∈ (dictLookup specPresets ("runz")).getD [] ∧
    statPresets1 ≠ specPresets := by decide

/-- C5 amended: wstat2.py's presets (lines 93-98) are exactly the spec's
sets (`notdone`, `runz`, `dead`, `oddball`); wstat.py's presets agree on
`notdone`, `dead` and `oddball`, but its `runz` (line 55) is the spec's
`runz` with `joining` and `running_ended` removed. -/
theorem C5_presets_amended :
    statPresets2 = specPresets ∧
    dictLookup statPresets1 ("notdone") = dictLookup specPresets ("notdone") ∧
    dictLookup statPresets1 ("dead") = dictLookup specPresets ("dead") ∧
    dictLookup statPresets1 ("oddball") = dictLookup specPresets ("oddball") ∧
    (dictLookup statPresets1 ("runz")).getD [] =
      ((dictLookup specPresets ("runz")).getD []).filter
        (fun s => !(s == "joining" || s == "running_ended")) := by decide

/-- C10: on an empty workflow table, `readWorkflowTable` leaves the
initial state (`numRuns = 0`), `selectRunID(None)` still returns `-1`
(wstat.py line 228), and indexing the empty `self.wrows` list with `-1`
(wstat.py line 248 / wstat2.py line 343) raises an uncaught `IndexError`
- modelled as `resolveRun` returning `none` - so no report and no clean
`RunNotFound`-style message is produced. -/
theorem C10_empty_run_table :
    readWorkflowTable [] = some initWfState ∧
    selectRunID [] initWfState.runnum2id none = some (-1) ∧
    pyIdx ([] : List WRow) (-1) = none ∧
    resolveRun [] initWfState none = none := by decide

/-- C6 counterexample: the claim says that for every loaded run table the
run numbers, in ascending `time_began` order, form a strictly increasing
gapless sequence starting at 1.  wstat.py takes run numbers from the
rundir basenames (line 203), so a table whose rundirs are `runinfo/002`
then `runinfo/001` (in `time_began` order) loads fine yet yields the
number sequence `[2, 1]`, which is not the consecutive sequence from 1. -/
theorem C6_counterexample :
    wRowsBad.map runNumOf = [some 2, some 1] ∧
    (readWorkflowTable wRowsBad).isSome ∧
    [(2 : Int), 1] ≠ consecFrom 1 2 := by decide

/-- Auxiliary: recording one runtime in the histogram data adds exactly
one entry. -/
theorem histCount_histAdd (k : String) (x : Int) :
    ∀ h : List (String × List Int), histCount (histAdd h k x) = histCount h + 1
  | [] => by simp [histAdd, histCount]
  | (k0, l) :: rest => by
    by_cases hk : (k0 == k) = true
    · simp [histAdd, hk, histCount]
      omega
    · rw [Bool.not_eq_true] at hk
      have := histCount_histAdd k x rest
      simp [histAdd, hk, histCount] at this ⊢
      omega

/-- Auxiliary: the effect of one `plotStats` loop iteration on each
accumulator field. -/
theorem plotStep_fields (acc : PlotAcc) (r : TRow) :
    (plotStep acc r).nDone =
      acc.nDone + (if substrOf ("done") r.status then 1 else 0) ∧
    (plotStep acc r).nErrors =
      acc.nErrors + (if substrOf ("done") r.status &&
        (timeDiff r.running r.returned).isNone then 1 else 0) ∧
    (plotStep acc r).nWarnLines =
      acc.nWarnLines + (if substrOf ("done") r.status &&
        (timeDiff r.running r.returned).isNone
        then (if acc.nErrors + 1 ≤ 10 then 1 else 0) else 0) ∧
    histCount (plotStep acc r).histData =
      histCount acc.histData + (if substrOf ("done") r.status &&
        !(timeDiff r.running r.returned).isNone then 1 else 0) := by
  by_cases hd : substrOf ("done") r.status = true
  · cases ht : timeDiff r.running r.returned with
    | none => simp [plotStep, hd, ht]
    | some rt => simp [plotStep, hd, ht, histCount_histAdd]
  · rw [Bool.not_eq_true] at hd
    simp [plotStep, hd]

/-- Auxiliary: the done counter of the `plotStats` fold. -/
theorem plot_nDone :
    ∀ (tasks : List TRow) (acc : PlotAcc),
      (tasks.foldl plotStep acc).nDone =
        acc.nDone + tasks.countP (fun r => substrOf ("done") r.status)
  | [], acc => by simp
  | r :: rest, acc => by
    rw [List.foldl_cons, plot_nDone rest, (plotStep_fields acc r).1, List.countP_cons]
    omega

/-- Auxiliary: the missing-runtime error counter of the `plotStats` fold. -/
theorem plot_nErrors :
    ∀ (tasks : List TRow) (acc : PlotAcc),
      (tasks.foldl plotStep acc).nErrors =
        acc.nErrors + tasks.countP (fun r =>
          substrOf ("done") r.status && (timeDiff r.running r.returned).isNone)
  | [], acc => by simp
  | r :: rest, acc => by
    rw [List.foldl_cons, plot_nErrors rest, (plotStep_fields acc r).2.1, List.countP_cons]
    omega

/-- Auxiliary: the printed-warning count of the `plotStats` fold stays
`min nErrors 10`. -/
theorem plot_nWarn :
    ∀ (tasks : List TRow) (acc : PlotAcc),
      acc.nWarnLines = min acc.nErrors 10 →
      (tasks.foldl plotStep acc).nWarnLines = min (tasks.foldl plotStep acc).nErrors 10
  | [], acc => fun h => by simpa using h
  | r :: rest, acc => fun h => by
    rw [List.foldl_cons]
    apply plot_nWarn rest
    rw [(plotStep_fields acc r).2.2.1, (plotStep_fields acc r).2.1, h]
    by_cases hc : (substrOf ("done") r.status &&
        (timeDiff r.running r.returned).isNone) = true
    · by_cases h10 : acc.nErrors + 1 ≤ 10
      · simp [hc, h10]
        omega
      · simp [hc, h10]
        omega
    · rw [Bool.not_eq_true] at hc
      simp [hc]

/-- Auxiliary: the histogram of the `plotStats` fold records exactly the
done rows with a computable runtime. -/
theorem plot_hist :
    ∀ (tasks : List TRow) (acc : PlotAcc),
      acc.nErrors ≤ acc.nDone →
      histCount acc.histData = acc.nDone - acc.nErrors →
      (tasks.foldl plotStep acc).nErrors ≤ (tasks.foldl plotStep acc).nDone ∧
      histCount (tasks.foldl plotStep acc).histData =
        (tasks.foldl plotStep acc).nDone - (tasks.foldl plotStep acc).nErrors
  | [], acc => fun h1 h2 => ⟨h1, h2⟩
  | r :: rest, acc => fun h1 h2 => by
    rw [List.foldl_cons]
    obtain ⟨f1, f2, f3, f4⟩ := plotStep_fields acc r
    have hA : (plotStep acc r).nErrors ≤ (plotStep acc r).nDone := by
      rw [f1, f2]
      by_cases hd : substrOf ("done") r.status = true
      · by_cases hn : (timeDiff r.running r.returned).isNone = true
        · simp [hd, hn]
          try omega
        · rw [Bool.not_eq_true] at hn
          simp [hd, hn]
          try omega
      · rw [Bool.not_eq_true] at hd
        simp [hd]
        try omega
    have hB : histCount (plotStep acc r).histData =
        (plotStep acc r).nDone - (plotStep acc r).nErrors := by
      rw [f1, f2, f4, h2]
      by_cases hd : substrOf ("done") r.status = true
      · by_cases hn : (timeDiff r.running r.returned).isNone = true
        · simp [hd, hn]
          try omega
        · rw [Bool.not_eq_true] at hn
          simp [hd, hn]
          try omega
      · rw [Bool.not_eq_true] at hd
        simp [hd]
    exact plot_hist rest (plotStep acc r) hA hB

/-- C7: a run-time or wait-time with an absent endpoint is reported as
absent, never zero and never an error (`pmon.timeDiff`, wstat.py lines
101-105, and the SQL NULL propagation of wstat2's `waitTime`/`runTime`
expressions, wstat2.py lines 40-44); and in `pmon.plotStats` (wstat.py
lines 556-578) every done-state task lacking a computable run-time is
counted as a data error, at most 10 warning lines are printed (the first
9 occurrences each get an `%ERROR` line, the 10th prints `Too many`,
further ones are suppressed), and the scan runs to completion,
histogramming exactly the done tasks that do have a runtime. -/
theorem C7_missing_durations :
    (∀ s e : Option Nat, timeDiff s e = none ↔ (s = none ∨ e = none)) ∧
    (∀ s e : Option Nat, julianDelta s e = none ↔ (s = none ∨ e = none)) ∧
    (∀ tasks : List TRow,
      (plotStatsScan tasks).nErrors =
        tasks.countP (fun r => substrOf ("done") r.status &&
          (timeDiff r.running r.returned).isNone) ∧
      (plotStatsScan tasks).nWarnLines = min (plotStatsScan tasks).nErrors 10 ∧
      (plotStatsScan tasks).nWarnLines ≤ 10 ∧
      (plotStatsScan tasks).nDone =
        tasks.countP (fun r => substrOf ("done") r.status) ∧
      histCount (plotStatsScan tasks).histData =
        (plotStatsScan tasks).nDone - (plotStatsScan tasks).nErrors) := by
  refine ⟨?_, ?_, ?_⟩
  · intro s e
    cases s <;> cases e <;> simp [timeDiff]
  · intro s e
    cases s <;> cases e <;> simp [julianDelta]
  · intro tasks
    have h2 := plot_nErrors tasks
      { nTasks := 0, nDone := 0, nErrors := 0, nWarnLines := 0, histData := [] }
    have h1 := plot_nDone tasks
      { nTasks := 0, nDone := 0, nErrors := 0, nWarnLines := 0, histData := [] }
    have hw := plot_nWarn tasks
      { nTasks := 0, nDone := 0, nErrors := 0, nWarnLines := 0, histData := [] }
      (by simp)
    have hh := plot_hist tasks
      { nTasks := 0, nDone := 0, nErrors := 0, nWarnLines := 0, histData := [] }
      (by simp) (by simp [histCount])
    refine ⟨by simpa [plotStatsScan] using h2, by simpa [plotStatsScan] using hw, ?_,
      by simpa [plotStatsScan] using h1, by simpa [plotStatsScan] using hh.2⟩
    have : (plotStatsScan tasks).nWarnLines = min (plotStatsScan tasks).nErrors 10 := by
      simpa [plotStatsScan] using hw
    omega

instance : IsTotal HRow histLe :=
  ⟨fun a b => by unfold histLe; omega⟩

instance : IsTrans HRow histLe :=
  ⟨fun a b c hab hbc => by unfold histLe at *; omega⟩

/-- C8: in a History-mode result set - the joined rows ordered by the
query's `order by t.task_id, s.timestamp asc` (wstat.py line 362;
wstat2.py line 56 orders by timestamp alone under a fixed `tasknum`) -
the rows belonging to any fixed task id appear in non-decreasing
timestamp order. -/
theorem C8_history_timestamp_order (rows : List HRow) (k : Nat) :
    ((orderTaskHistory rows).filter (fun r => r.tasknum == k)).Pairwise
      (fun a b => a.timestamp ≤ b.timestamp) := by
  have hs : List.Pairwise histLe (orderTaskHistory rows) :=
    List.sorted_insertionSort histLe rows
  have hp : ((orderTaskHistory rows).filter (fun r => r.tasknum == k)).Pairwise histLe :=
    List.Pairwise.filter _ hs
  refine List.Pairwise.imp_of_mem ?_ hp
  intro a b ha hb hab
  have ha2 : a.tasknum = k := by
    have := (List.mem_filter.mp ha).2
    simpa using this
  have hb2 : b.tasknum = k := by
    have := (List.mem_filter.mp hb).2
    simpa using this
  unfold histLe at hab
  omega

/-- Auxiliary: bumping a key adds one to the dictionary's value sum. -/
theorem bump_dictSum (k : String) :
    ∀ d : List (String × Nat), dictSum (bump d k) = dictSum d + 1
  | [] => by simp [bump, dictSum]
  | (k0, v) :: rest => by
    by_cases hk : (k0 == k) = true
    · simp [bump, hk, dictSum]
      try omega
    · rw [Bool.not_eq_true] at hk
      have := bump_dictSum k rest
      simp [bump, hk, dictSum] at this ⊢
      omega

/-- Auxiliary: bumping a key increments exactly that key's count. -/
theorem bump_dictLookup (k k2 : String) :
    ∀ d : List (String × Nat),
      dictLookup (bump d k) k2 =
        if k2 = k then some ((dictLookup d k).getD 0 + 1) else dictLookup d k2
  | [] => by
    by_cases h : k2 = k
    · subst h
      simp [bump, dictLookup]
    · have h2 : (k == k2) = false := by
        rw [beq_eq_false_iff_ne]
        exact fun e => h e.symm
      simp [bump, dictLookup, h, h2]
  | (k0, v) :: rest => by
    by_cases hk : k0 = k
    · subst hk
      by_cases h2 : k2 = k0
      · subst h2
        simp [bump, dictLookup]
      · have hb : (k0 == k2) = false := by
          rw [beq_eq_false_iff_ne]
          exact fun e => h2 e.symm
        simp [bump, dictLookup, h2, hb]
    · have hbk : (k0 == k) = false := by
        rw [beq_eq_false_iff_ne]
        exact hk
      by_cases h2 : k2 = k0
      · subst h2
        simp [bump, dictLookup, hbk, hk]
      · have hb : (k0 == k2) = false := by
          rw [beq_eq_false_iff_ne]
          exact fun e => h2 e.symm
        have := bump_dictLookup k k2 rest
        simp [bump, dictLookup, hbk, hb] at this ⊢
        exact this

/-- Auxiliary: one kept row preserves the node-usage invariant of the
`getTaskData` scan. -/
theorem scanInv_step (taskID : Option Nat) (taskName taskStatus : Option String)
    (st : ScanState) (r : TRow)
    (hkeep : keepRow taskID taskName taskStatus r = true)
    (h : scanInv taskID taskName taskStatus st) :
    scanInv taskID taskName taskStatus
      { nodeUsage := if r.status == "running" then bump st.nodeUsage (hostKey r) else st.nodeUsage,
        nRunning := if r.status == "running" then st.nRunning + 1 else st.nRunning,
        grCount := st.grCount + 1,
        pTasks := st.pTasks ++ [r] } := by
  obtain ⟨hU, hS, hR, hA⟩ := h
  by_cases hr : (r.status == "running") = true
  · refine ⟨?_, ?_, ?_, ?_⟩
    · intro k
      simp only [hr, if_true]
      rw [bump_dictLookup]
      by_cases hk : k = hostKey r
      · subst hk
        rw [if_pos rfl, hU]
        have hcnt : (st.pTasks ++ [r]).countP
            (fun x => x.status == "running" && hostKey x == hostKey r) =
            st.pTasks.countP (fun x => x.status == "running" && hostKey x == hostKey r) + 1 := by
          simp [List.countP_append, hr]
        rw [hcnt]
        by_cases hc : st.pTasks.countP
            (fun x => x.status == "running" && hostKey x == hostKey r) = 0
        · simp [hc]
        · simp [hc]
      · rw [if_neg hk]
        rw [hU]
        have hb : (hostKey r == k) = false := by
          rw [beq_eq_false_iff_ne]
          exact fun e => hk e.symm
        have hcnt : (st.pTasks ++ [r]).countP
            (fun x => x.status == "running" && hostKey x == k) =
            st.pTasks.countP (fun x => x.status == "running" && hostKey x == k) := by
          simp [List.countP_append, hb]
        rw [hcnt]
    · simp only [hr, if_true]
      rw [bump_dictSum, hS]
    · simp only [hr, if_true]
      rw [hR]
      simp [List.countP_append, hr]
    · simp [List.all_append, hA, hkeep]
  · rw [Bool.not_eq_true] at hr
    refine ⟨?_, ?_, ?_, ?_⟩
    · intro k
      simp only [hr, Bool.false_eq_true, if_false]
      rw [hU]
      have hcnt : (st.pTasks ++ [r]).countP
          (fun x => x.status == "running" && hostKey x == k) =
          st.pTasks.countP (fun x => x.status == "running" && hostKey x == k) := by
        simp [List.countP_append, hr]
      rw [hcnt]
    · simp only [hr, Bool.false_eq_true, if_false]
      exact hS
    · simp only [hr, Bool.false_eq_true, if_false]
      rw [hR]
      simp [List.countP_append, hr]
    · simp [List.all_append, hA, hkeep]

/-- Auxiliary: the whole `getTaskData` row loop preserves the node-usage
invariant, early `taskLimit` break included. -/
theorem getTaskDataLoop_inv :
    ∀ (rows : List TRow) (lim : Nat) (taskID : Option Nat) (taskName taskStatus : Option String)
      (st : ScanState),
      scanInv taskID taskName taskStatus st →
      scanInv taskID taskName taskStatus (getTaskDataLoop lim taskID taskName taskStatus rows st)
  | [], lim, taskID, taskName, taskStatus, st => fun h => h
  | r :: rs, lim, taskID, taskName, taskStatus, st => fun h => by
    by_cases hkeep : keepRow taskID taskName taskStatus r = true
    · have hstep := scanInv_step taskID taskName taskStatus st r hkeep h
      simp only [getTaskDataLoop, hkeep, if_true]
      by_cases hbrk : 0 < lim ∧ lim ≤ st.grCount + 1
      · simp only [hbrk, if_true]
        exact hstep
      · simp only [hbrk, if_false]
        exact getTaskDataLoop_inv rs lim taskID taskName taskStatus _ hstep
    · rw [Bool.not_eq_true] at hkeep
      simp only [getTaskDataLoop, hkeep, Bool.false_eq_true, if_false]
      exact getTaskDataLoop_inv rs lim taskID taskName taskStatus st h

/-- C9: after a single `getTaskData` call (on a fresh `pmon`, whose
`nodeUsage` and `pTasks` start empty), each `nodeUsage` entry counts
exactly the kept rows with status exactly `running` under that host key
- a `None` host bucketed under the literal `unknown`, never dropped -
the entries sum to the `nRunning` counter accumulated in the same pass,
and `nRunning` counts exactly the kept running rows. -/
theorem C9_nodeUsage_consistency (lim : Nat) (taskID : Option Nat)
    (taskName taskStatus : Option String) (rows : List TRow) :
    scanInv taskID taskName taskStatus
      (getTaskDataLoop lim taskID taskName taskStatus rows initScanState) := by
  apply getTaskDataLoop_inv
  refine ⟨?_, ?_, ?_, ?_⟩
  · intro k
    simp [initScanState, dictLookup]
  · simp [initScanState, dictSum]
  · simp [initScanState]
  · simp [initScanState]

/-- Auxiliary: the preset scan finds nothing when the filter value is not
a preset key. -/
theorem presetKeepLoop_notkey :
    ∀ (presets : List (String × List String)) (f st : String),
      f ∉ presets.map Prod.fst → presetKeepLoop presets f st = false
  | [], f, st => fun _ => rfl
  | (k, l) :: rest, f, st => fun h => by
    have hfk : ¬ f = k := fun e => h (by simp [e])
    have hb : (f == k) = false := by
      rw [beq_eq_false_iff_ne]
      exact hfk
    have hrest : f ∉ rest.map Prod.fst := fun e => h (by simp [e])
    simp only [presetKeepLoop, hb, Bool.false_and, Bool.false_eq_true, if_false]
    exact presetKeepLoop_notkey rest f st hrest

/-- Auxiliary: with distinct preset names, the preset scan is membership
in the looked-up preset's state set. -/
theorem presetKeepLoop_char :
    ∀ (presets : List (String × List String)),
      (presets.map Prod.fst).Nodup → ∀ f st : String,
      presetKeepLoop presets f st = ((dictLookup presets f).getD []).contains st
  | [], _, f, st => by simp [presetKeepLoop, dictLookup]
  | (k, l) :: rest, hnd, f, st => by
    have hnd2 : (k :: rest.map Prod.fst).Nodup := by simpa using hnd
    by_cases hf : f = k
    · subst hf
      have hnotin : f ∉ rest.map Prod.fst := (List.nodup_cons.mp hnd2).1
      have hloop : presetKeepLoop ((f, l) :: rest) f st =
          (if (f == f && l.contains st) = true then true else presetKeepLoop rest f st) := rfl
      have hlk : dictLookup ((f, l) :: rest) f = some l := by
        simp [dictLookup, List.find?_cons]
      rw [hloop, hlk]
      simp [presetKeepLoop_notkey rest f st hnotin]
    · have hb : (f == k) = false := by
        rw [beq_eq_false_iff_ne]
        exact hf
      have hb2 : (k == f) = false := by
        rw [beq_eq_false_iff_ne]
        exact fun e => hf e.symm
      have htail : (rest.map Prod.fst).Nodup := (List.nodup_cons.mp hnd2).2
      have hloop : presetKeepLoop ((k, l) :: rest) f st =
          (if (f == k && l.contains st) = true then true else presetKeepLoop rest f st) := rfl
      rw [hloop, hb]
      simp only [Bool.false_and, Bool.false_eq_true, if_false]
      have hlk : dictLookup ((k, l) :: rest) f = dictLookup rest f := by
        simp [dictLookup, List.find?_cons, hb2]
      rw [hlk]
      exact presetKeepLoop_char rest htail f st

/-- Auxiliary: the status filter of `getTaskData`, characterized - a
preset name selects by membership, any other value by substring
containment. -/
theorem statusKeep_char (presets : List (String × List String))
    (hnd : (presets.map Prod.fst).Nodup) (f st : String) :
    statusKeep presets f st =
      (match dictLookup presets f with
       | some l => l.contains st
       | none => substrOf f st) := by
  unfold statusKeep
  by_cases hany : (presets.any (fun p => p.1 == f)) = true
  · rw [if_pos hany, presetKeepLoop_char presets hnd f st]
    obtain ⟨p, hpmem, hpf⟩ := List.any_eq_true.mp hany
    have hsome : (List.find? (fun q => q.1 == f) presets).isSome = true := by
      rw [List.find?_isSome]
      exact ⟨p, hpmem, hpf⟩
    obtain ⟨q, hq⟩ := Option.isSome_iff_exists.mp hsome
    have hlk : dictLookup presets f = some q.2 := by
      simp [dictLookup, hq]
    rw [hlk]
    simp
  · rw [if_neg hany]
    have hnone : List.find? (fun q => q.1 == f) presets = none := by
      rw [List.find?_eq_none]
      intro p hp hpf
      exact hany (List.any_eq_true.mpr ⟨p, hp, hpf⟩)
    have hlk : dictLookup presets f = none := by
      simp [dictLookup, hnone]
    rw [hlk]

/-- C4 amended: in wstat.py's `getTaskData`, a status filter value that
is a preset name keeps a row exactly when the row's status is a member of
that preset's state set, and any other value keeps a row exactly when it
occurs as a substring of the row's status (not exact equality); the task
id and task-type-name filters are exact and all filters combine with AND
(the run-number argument never enters the Summary query's `where`
clause).  In wstat2.py's `taskSum`, every supplied filter - the status
filter included, with no special treatment of preset names - is an exact
equality, combined with AND. -/
theorem C4_filter_amended :
    (∀ f st : String,
      statusKeep statPresets1 f st =
        (match dictLookup statPresets1 f with
         | some l => l.contains st
         | none => substrOf f st)) ∧
    (∀ (taskID : Option Nat) (taskName taskStatus : Option String) (r : TRow),
      keepRow taskID taskName taskStatus r =
        ((taskID.all (fun i => r.task_id == i)) &&
         (taskName.all (fun nm => r.task_func_name == nm)) &&
         (taskStatus.all (fun s => statusKeep statPresets1 s r.status)))) ∧
    (∀ (runnum : Option Int) (tasknum taskid : Option Nat)
       (taskname status : Option String) (row : SumRow),
      sumRowKeep runnum tasknum taskid taskname status row =
        ((runnum.all (fun v => row.runnum == v)) &&
         (tasknum.all (fun v => row.tasknum == v)) &&
         (taskid.all (fun v => row.task_id == v)) &&
         (taskname.all (fun v => row.function == v)) &&
         (status.all (fun v => row.status == v)))) ∧
    (∀ row : SumRow,
      sumRowKeep none none none none (some ("notdone")) row =
        (row.status == "notdone")) := by
  refine ⟨?_, ?_, ?_, ?_⟩
  · intro f st
    exact statusKeep_char statPresets1 (by decide) f st
  · intro taskID taskName taskStatus r
    cases taskID <;> cases taskName <;> cases taskStatus <;>
      simp [keepRow, Option.all]
  · intro runnum tasknum taskid taskname status row
    cases runnum <;> cases tasknum <;> cases taskid <;> cases taskname <;> cases status <;>
      simp [sumRowKeep, taskSumWhere, Option.all, Bool.and_assoc]
  · intro row
    simp [sumRowKeep, taskSumWhere]

/-- Auxiliary: reading a cell of a cons'd tally row. -/
theorem cell_cons (k0 : String) (v : Nat) (rest : StatRow) (k2 : String) :
    cell ((k0, v) :: rest) k2 = if (k0 == k2) = true then v else cell rest k2 := by
  by_cases h : (k0 == k2) = true
  · simp [cell, dictLookup, List.find?_cons, h]
  · rw [Bool.not_eq_true] at h
    simp [cell, dictLookup, List.find?_cons, h]

/-- Auxiliary: a row whose values are all zero has zero cells. -/
theorem cell_zero :
    ∀ (row : StatRow), (∀ p ∈ row, p.2 = 0) → ∀ k : String, cell row k = 0
  | [], _, k => by simp [cell, dictLookup]
  | (k0, v) :: rest, h, k => by
    rw [cell_cons]
    by_cases hb : (k0 == k) = true
    · simp [hb]
      exact h (k0, v) (by simp)
    · rw [Bool.not_eq_true] at hb
      simp [hb, cell_zero rest (fun p hp => h p (by simp [hp])) k]

/-- Auxiliary: the column labels of the template row. -/
theorem mkStatTemplate_keys (sl : List String) :
    (mkStatTemplate sl).map Prod.fst = sl ++ ["TOTAL"] := by
  unfold mkStatTemplate
  rw [List.map_append, List.map_map]
  have : (Prod.fst ∘ fun s : String => (s, (0 : Nat))) = id := by
    funext x
    rfl
  simp [this]

/-- Auxiliary: every cell of the template row is zero. -/
theorem mkStatTemplate_cell (sl : List String) (k : String) :
    cell (mkStatTemplate sl) k = 0 := by
  apply cell_zero
  intro p hp
  simp only [mkStatTemplate, List.mem_append, List.mem_map, List.mem_singleton] at hp
  rcases hp with ⟨a, _, rfl⟩ | rfl
  · rfl
  · rfl

/-- Auxiliary: the state columns of the template row sum to zero. -/
theorem rowStateSum_template (sl : List String) :
    rowStateSum sl (mkStatTemplate sl) = 0 := by
  unfold rowStateSum
  apply List.sum_eq_zero
  intro x hx
  obtain ⟨a, _, rfl⟩ := List.mem_map.mp hx
  exact mkStatTemplate_cell sl a

/-- Auxiliary: `row[k] += 1` succeeds exactly on present keys, keeps the
column labels, and increments exactly the cell of `k`. -/
theorem incr?_spec :
    ∀ (row : StatRow) (k : String), k ∈ row.map Prod.fst →
      ∃ row2, incr? row k = some row2 ∧
        row2.map Prod.fst = row.map Prod.fst ∧
        (∀ k2 : String, cell row2 k2 = cell row k2 + (if k2 = k then 1 else 0))
  | [], k => by simp
  | (k0, v) :: rest, k => fun hmem => by
    by_cases h : k0 = k
    · subst h
      refine ⟨(k0, v + 1) :: rest, by simp [incr?], by simp, ?_⟩
      intro k2
      rw [cell_cons, cell_cons]
      by_cases h2 : k0 = k2
      · subst h2
        simp
      · have hb : (k0 == k2) = false := by
          rw [beq_eq_false_iff_ne]
          exact h2
        have h3 : ¬ k2 = k0 := fun e => h2 e.symm
        simp [hb, h3]
    · have hb : (k0 == k) = false := by
        rw [beq_eq_false_iff_ne]
        exact h
      have hmem2 : k ∈ rest.map Prod.fst := by
        rw [List.map_cons] at hmem
        rcases List.mem_cons.mp hmem with h1 | h1
        · exact absurd h1.symm h
        · exact h1
      obtain ⟨rest2, he, hkeys, hcell⟩ := incr?_spec rest k hmem2
      refine ⟨(k0, v) :: rest2, by simp [incr?, hb, he], by simp [hkeys], ?_⟩
      intro k2
      rw [cell_cons, cell_cons]
      by_cases h2 : (k0 == k2) = true
      · have hk2 : k0 = k2 := by simpa using h2
        have h4 : ¬ k2 = k := fun e => h (hk2.trans e)
        simp [h2, h4]
      · rw [Bool.not_eq_true] at h2
        simp [h2, hcell k2]

/-- Auxiliary: the combined `row[tStat] += 1; row['TOTAL'] += 1` update. -/
theorem rowIncr_spec (sl : List String) (row : StatRow) (s : String)
    (hkeys : row.map Prod.fst = sl ++ ["TOTAL"]) (hs : s ∈ sl) :
    ∃ row2, rowIncr s row = some row2 ∧
      row2.map Prod.fst = sl ++ ["TOTAL"] ∧
      (∀ k2 : String, cell row2 k2 =
        cell row k2 + (if k2 = s then 1 else 0) + (if k2 = "TOTAL" then 1 else 0)) := by
  have hmem : s ∈ row.map Prod.fst := by
    rw [hkeys]
    exact List.mem_append_left _ hs
  obtain ⟨r1, he1, hk1, hc1⟩ := incr?_spec row s hmem
  have hmem2 : ("TOTAL" : String) ∈ r1.map Prod.fst := by
    rw [hk1, hkeys]
    simp
  obtain ⟨r2, he2, hk2, hc2⟩ := incr?_spec r1 ("TOTAL") hmem2
  refine ⟨r2, by simp [rowIncr, he1, he2], by rw [hk2, hk1, hkeys], ?_⟩
  intro k2
  rw [hc2, hc1]

/-- Auxiliary: a pointwise sum of two tallies splits. -/
theorem sum_map_add {α : Type} (l : List α) (f g : α → Nat) :
    (l.map (fun x => f x + g x)).sum = (l.map f).sum + (l.map g).sum := by
  induction l with
  | nil => simp
  | cons a t ih =>
    simp [ih]
    omega

/-- Auxiliary: a one-hot indicator over a duplicate-free list containing
the hot element sums to one. -/
theorem sum_map_ite_one (s : String) :
    ∀ (l : List String), l.Nodup → s ∈ l →
      (l.map (fun x => if x = s then 1 else 0)).sum = 1
  | [], _, h => by simp at h
  | a :: t, hnd, hmem => by
    rcases List.mem_cons.mp hmem with rfl | hmem2
    · have hnot : s ∉ t := (List.nodup_cons.mp hnd).1
      have hz : (t.map (fun x => if x = s then 1 else 0)).sum = 0 := by
        apply List.sum_eq_zero
        intro x hx
        obtain ⟨b, hb, rfl⟩ := List.mem_map.mp hx
        have hbs : ¬ b = s := fun e => hnot (e ▸ hb)
        simp [hbs]
      simp [hz]
    · have ha : ¬ a = s := fun e => (List.nodup_cons.mp hnd).1 (e ▸ hmem2)
      simp [ha, sum_map_ite_one s t (List.nodup_cons.mp hnd).2 hmem2]

/-- Auxiliary: one `rowIncr` adds one to the row's state-column sum. -/
theorem rowStateSum_incr (sl : List String) (hnd : sl.Nodup)
    (hT : ("TOTAL" : String) ∉ sl) (row row2 : StatRow) (s : String) (hs : s ∈ sl)
    (hc : ∀ k2 : String, cell row2 k2 =
      cell row k2 + (if k2 = s then 1 else 0) + (if k2 = "TOTAL" then 1 else 0)) :
    rowStateSum sl row2 = rowStateSum sl row + 1 := by
  unfold rowStateSum
  have hmap : sl.map (cell row2) =
      sl.map (fun x => cell row x + (if x = s then 1 else 0)) := by
    apply List.map_congr_left
    intro x hx
    rw [hc x]
    have : ¬ x = "TOTAL" := fun e => hT (e ▸ hx)
    simp [this]
  rw [hmap, sum_map_add, sum_map_ite_one s sl hnd hs]

/-- Auxiliary: one matrix update (`taskStats[tName]` create-then-tally):
it succeeds, keeps all rows on the template's columns, introduces at most
the name `t`, adds one to the total of per-row state sums, adds one to
exactly column `s`, and preserves "each row's `TOTAL` cell equals its
state sum". -/
theorem matIncr_spec (sl : List String) (hnd : sl.Nodup)
    (hT : ("TOTAL" : String) ∉ sl) (s : String) (hs : s ∈ sl) (t : String) :
    ∀ (m : StatMatrix),
      (∀ p ∈ m, p.2.map Prod.fst = sl ++ ["TOTAL"]) →
      ∃ m2, matIncr (mkStatTemplate sl) m t (rowIncr s) = some m2 ∧
        (∀ p ∈ m2, p.2.map Prod.fst = sl ++ ["TOTAL"]) ∧
        (∀ p ∈ m2, p.1 ∈ m.map Prod.fst ∨ p.1 = t) ∧
        (m2.map (fun p => rowStateSum sl p.2)).sum =
          (m.map (fun p => rowStateSum sl p.2)).sum + 1 ∧
        (∀ s2 ∈ sl, (m2.map (fun p => cell p.2 s2)).sum =
          (m.map (fun p => cell p.2 s2)).sum + (if s2 = s then 1 else 0)) ∧
        ((∀ p ∈ m, cell p.2 ("TOTAL") = rowStateSum sl p.2) →
          ∀ p ∈ m2, cell p.2 ("TOTAL") = rowStateSum sl p.2)
  | [] => fun _ => by
    obtain ⟨r2, he, hk, hc⟩ :=
      rowIncr_spec sl (mkStatTemplate sl) s (mkStatTemplate_keys sl) hs
    have hTs : ¬ ("TOTAL" : String) = s := fun e => hT (by rw [e]; exact hs)
    have hsum2 : rowStateSum sl r2 = 1 := by
      rw [rowStateSum_incr sl hnd hT (mkStatTemplate sl) r2 s hs hc, rowStateSum_template]
    have hcT : cell r2 ("TOTAL") = 1 := by
      rw [hc ("TOTAL"), mkStatTemplate_cell]
      simp [hTs]
    refine ⟨[(t, r2)], by simp [matIncr, he], ?_, ?_, ?_, ?_, ?_⟩
    · intro p hp
      rw [List.mem_singleton] at hp
      subst hp
      exact hk
    · intro p hp
      rw [List.mem_singleton] at hp
      subst hp
      right
      rfl
    · simp [hsum2]
    · intro s2 hs2
      have hns : ¬ s2 = "TOTAL" := fun e => hT (by rw [← e]; exact hs2)
      simp [hc s2, mkStatTemplate_cell, hns]
    · intro _ p hp
      rw [List.mem_singleton] at hp
      subst hp
      rw [hcT, hsum2]
  | (k0, row) :: rest => fun hkeys => by
    by_cases hk : (k0 == t) = true
    · obtain ⟨r2, he, hkk, hc⟩ := rowIncr_spec sl row s (hkeys (k0, row) (by simp)) hs
      have hTs : ¬ ("TOTAL" : String) = s := fun e => hT (by rw [e]; exact hs)
      have hsum2 := rowStateSum_incr sl hnd hT row r2 s hs hc
      have hcT : cell r2 ("TOTAL") = cell row ("TOTAL") + 1 := by
        rw [hc ("TOTAL")]
        simp [hTs]
      refine ⟨(k0, r2) :: rest, by simp [matIncr, hk, he], ?_, ?_, ?_, ?_, ?_⟩
      · intro p hp
        rcases List.mem_cons.mp hp with rfl | hp2
        · exact hkk
        · exact hkeys p (by simp [hp2])
      · intro p hp
        rcases List.mem_cons.mp hp with rfl | hp2
        · left
          simp
        · left
          rw [List.map_cons]
          exact List.mem_cons_of_mem _ (List.mem_map_of_mem _ hp2)
      · simp only [List.map_cons, List.sum_cons, hsum2]
        omega
      · intro s2 hs2
        have hns : ¬ s2 = "TOTAL" := fun e => hT (by rw [← e]; exact hs2)
        simp only [List.map_cons, List.sum_cons, hc s2, hns, if_false]
        omega
      · intro hinv p hp
        rcases List.mem_cons.mp hp with rfl | hp2
        · rw [hcT, hsum2, hinv (k0, row) (by simp)]
        · exact hinv p (by simp [hp2])
    · obtain ⟨m2, he, h1, h2, h3, h4, h5⟩ :=
        matIncr_spec sl hnd hT s hs t rest (fun p hp => hkeys p (by simp [hp]))
      refine ⟨(k0, row) :: m2, by simp [matIncr, hk, he], ?_, ?_, ?_, ?_, ?_⟩
      · intro p hp
        rcases List.mem_cons.mp hp with rfl | hp2
        · exact hkeys (k0, row) (by simp)
        · exact h1 p hp2
      · intro p hp
        rcases List.mem_cons.mp hp with rfl | hp2
        · left
          simp
        · rcases h2 p hp2 with h | h
          · left
            rw [List.map_cons]
            exact List.mem_cons_of_mem _ h
          · right
            exact h
      · simp only [List.map_cons, List.sum_cons, h3]
        omega
      · intro s2 hs2
        simp only [List.map_cons, List.sum_cons, h4 s2 hs2]
        omega
      · intro hinv p hp
        rcases List.mem_cons.mp hp with rfl | hp2
        · exact hinv (k0, row) (by simp)
        · exact h5 (fun q hq => hinv q (by simp [hq])) p hp2

/-- Auxiliary: the whole status-matrix tally fold, tracked against the
input rows: it succeeds, never creates a task-type row named `TOTAL`,
advances the per-row state sums and the `statTotals` row by the row
count and the per-state counts, and keeps every row's `TOTAL` cell equal
to its state sum. -/
theorem tally_fold_spec (sl : List String) (hnd : sl.Nodup)
    (hT : ("TOTAL" : String) ∉ sl) :
    ∀ (rows : List (String × String)) (m : StatMatrix) (totals : StatRow),
      (∀ r ∈ rows, r.1 ≠ "TOTAL") → (∀ r ∈ rows, r.2 ∈ sl) →
      (∀ p ∈ m, p.2.map Prod.fst = sl ++ ["TOTAL"]) →
      (∀ p ∈ m, p.1 ≠ "TOTAL") →
      totals.map Prod.fst = sl ++ ["TOTAL"] →
      ∃ m2 totals2,
        rows.foldlM (tallyStep (mkStatTemplate sl)) (m, totals) = some (m2, totals2) ∧
        (∀ p ∈ m2, p.1 ≠ "TOTAL") ∧
        (m2.map (fun p => rowStateSum sl p.2)).sum =
          (m.map (fun p => rowStateSum sl p.2)).sum + rows.length ∧
        cell totals2 ("TOTAL") = cell totals ("TOTAL") + rows.length ∧
        (∀ s2 ∈ sl, (m2.map (fun p => cell p.2 s2)).sum =
            (m.map (fun p => cell p.2 s2)).sum + rows.countP (fun r => r.2 == s2)) ∧
        (∀ s2 ∈ sl, cell totals2 s2 = cell totals s2 + rows.countP (fun r => r.2 == s2)) ∧
        ((∀ p ∈ m, cell p.2 ("TOTAL") = rowStateSum sl p.2) →
          ∀ p ∈ m2, cell p.2 ("TOTAL") = rowStateSum sl p.2)
  | [], m, totals => fun _ _ _ hnm _ => by
    exact ⟨m, totals, by simp, hnm, by simp, by simp, by simp, by simp, fun h => h⟩
  | (nm, s) :: rest, m, totals => fun hname hstat hkeys hnm htk => by
    have hs : s ∈ sl := hstat (nm, s) (by simp)
    have hTs : ¬ ("TOTAL" : String) = s := fun e => hT (by rw [e]; exact hs)
    obtain ⟨m1, hem, hk1, hnames1, hsum1, hcol1, hrt1⟩ :=
      matIncr_spec sl hnd hT s hs nm m hkeys
    obtain ⟨t1, het, hkt1, hct1⟩ := rowIncr_spec sl totals s htk hs
    have hnm1 : ∀ p ∈ m1, p.1 ≠ "TOTAL" := by
      intro p hp
      rcases hnames1 p hp with h | h
      · obtain ⟨q, hq, hq2⟩ := List.mem_map.mp h
        rw [← hq2]
        exact hnm q hq
      · rw [h]
        exact hname (nm, s) (by simp)
    obtain ⟨m2, totals2, hfold, hnm2, hsum2, htot2, hcol2, htc2, hrt2⟩ :=
      tally_fold_spec sl hnd hT rest m1 t1
        (fun r hr => hname r (by simp [hr]))
        (fun r hr => hstat r (by simp [hr]))
        hk1 hnm1 hkt1
    refine ⟨m2, totals2, ?_, hnm2, ?_, ?_, ?_, ?_, ?_⟩
    · rw [List.foldlM_cons]
      have hstep : tallyStep (mkStatTemplate sl) (m, totals) (nm, s) = some (m1, t1) := by
        simp [tallyStep, hem, het]
      rw [hstep]
      exact hfold
    · rw [hsum2, hsum1, List.length_cons]
      omega
    · rw [htot2, hct1 ("TOTAL"), List.length_cons]
      simp [hTs]
      omega
    · intro s2 hs2
      rw [hcol2 s2 hs2, hcol1 s2 hs2, List.countP_cons]
      have hcond : ((nm, s).2 == s2) = (if s2 = s then true else false) := by
        by_cases h : s2 = s
        · simp [h]
        · have : ¬ s = s2 := fun e => h e.symm
          simp [h, this]
      rw [hcond]
      by_cases h : s2 = s
      · simp [h]
        try omega
      · simp [h]
        try omega
    · intro s2 hs2
      rw [htc2 s2 hs2, hct1 s2, List.countP_cons]
      have hns : ¬ s2 = "TOTAL" := fun e => hT (by rw [← e]; exact hs2)
      have hsT : ¬ s = "TOTAL" := fun e => hT (by rw [← e]; exact hs)
      have hcond : ((nm, s).2 == s2) = (if s2 = s then true else false) := by
        by_cases h : s2 = s
        · simp [h]
        · have : ¬ s = s2 := fun e => h e.symm
          simp [h, this]
      rw [hcond]
      by_cases h : s2 = s
      · simp [h, hns, hsT]
        try omega
      · simp [h, hns]
        try omega
    · intro hinv
      exact hrt2 (hrt1 hinv)

/-- Auxiliary: setting the reserved `TOTAL` key on a matrix without that
key appends the row at the end. -/
theorem dictSet_notmem (v : StatRow) :
    ∀ (m : StatMatrix), (∀ p ∈ m, p.1 ≠ "TOTAL") →
      dictSet m ("TOTAL") v = m ++ [("TOTAL", v)]
  | [], _ => rfl
  | (k0, v0) :: rest, h => by
    have hb : (k0 == "TOTAL") = false := by
      rw [beq_eq_false_iff_ne]
      exact h (k0, v0) (by simp)
    simp [dictSet, hb, dictSet_notmem v rest (fun p hp => h p (by simp [hp]))]

/-- Auxiliary: the task-type rows of the finished matrix are exactly the
tallied rows. -/
theorem typeRows_append (v : StatRow) (m : StatMatrix)
    (h : ∀ p ∈ m, p.1 ≠ "TOTAL") :
    typeRows (m ++ [("TOTAL", v)]) = m := by
  unfold typeRows
  rw [List.filter_append]
  have h1 : m.filter (fun p => p.1 != "TOTAL") = m := by
    apply List.filter_eq_self.mpr
    intro p hp
    simpa using h p hp
  simp [h1]

/-- Auxiliary: the `TOTAL` row of the finished matrix is the appended
`statTotals` row. -/
theorem totalRowOf_append (v : StatRow) (m : StatMatrix)
    (h : ∀ p ∈ m, p.1 ≠ "TOTAL") :
    totalRowOf (m ++ [("TOTAL", v)]) = v := by
  unfold totalRowOf dictLookup
  rw [find?_append_or]
  have hnone : m.find? (fun p => p.1 == "TOTAL") = none := by
    rw [List.find?_eq_none]
    intro p hp hc
    exact h p hp (by simpa using hc)
  simp [hnone, Option.orElse, List.find?_cons]

/-- C1 amended: for a duplicate-free state vocabulary that does not
contain the reserved label `TOTAL` (true of both scripts' vocabularies),
and every row set whose statuses lie in the vocabulary and whose
task-type names are not the literal `TOTAL`, the status-matrix tally
succeeds and the resulting matrix satisfies the claimed invariant: the
task-type cells sum to the `TOTAL.TOTAL` cell, which equals the number
of input rows; each task-type row's `TOTAL` cell equals the sum of its
state counts; and each state column's bottom total equals that column's
sum over the task-type rows. -/
theorem C1_matrix_amended (sl : List String) (rows : List (String × String))
    (hnd : sl.Nodup) (hT : ("TOTAL" : String) ∉ sl)
    (hname : ∀ r ∈ rows, r.1 ≠ "TOTAL") (hstat : ∀ r ∈ rows, r.2 ∈ sl) :
    ∃ m, taskStatusMatrix sl rows = some m ∧ matrixInvariant sl m rows.length := by
  obtain ⟨m2, totals2, hfold, hnames, hsum, htot, hcols, htotcols, hrowtot⟩ :=
    tally_fold_spec sl hnd hT rows [] (mkStatTemplate sl) hname hstat
      (by simp) (by simp) (mkStatTemplate_keys sl)
  refine ⟨dictSet m2 ("TOTAL") totals2, ?_, ?_⟩
  · simp [taskStatusMatrix, hfold]
  · rw [dictSet_notmem totals2 m2 hnames]
    have htr := totalRowOf_append totals2 m2 hnames
    have htyp := typeRows_append totals2 m2 hnames
    refine ⟨?_, ?_, ?_, ?_⟩
    · unfold allCellSum
      rw [htyp, htr, hsum, htot, mkStatTemplate_cell]
      simp
    · rw [htr, htot, mkStatTemplate_cell]
      simp
    · intro p hp
      rw [htyp] at hp
      exact hrowtot (by simp) p hp
    · intro s2 hs2
      rw [htr, htotcols s2 hs2, mkStatTemplate_cell]
      unfold colSum
      rw [htyp, hcols s2 hs2]
      simp

/-- C1 witness: the spec's §8 scenario - three tasks of type `add` with
statuses `exec_done, exec_done, failed` - instantiates the amended tally
invariant for wstat.py's vocabulary. -/
theorem C1_matrix_witness :
    ∃ m, taskStatusMatrix statList1 addRows = some m ∧
      matrixInvariant statList1 m addRows.length :=
  C1_matrix_amended statList1 addRows (by decide) (by decide)
    (by decide) (by decide)

/-- Auxiliary: length of a consecutive run of integers. -/
theorem consecFrom_length : ∀ (n : Nat) (a : Int), (consecFrom a n).length = n
  | 0, a => rfl
  | n + 1, a => by simp [consecFrom, consecFrom_length n (a + 1)]

/-- Auxiliary: membership in a consecutive run of integers. -/
theorem mem_consecFrom : ∀ (n : Nat) (a x : Int), x ∈ consecFrom a n ↔ (a ≤ x ∧ x < a + n)
  | 0, a, x => by
    simp [consecFrom]
    try omega
  | n + 1, a, x => by
    simp [consecFrom, mem_consecFrom n (a + 1) x]
    omega

/-- Auxiliary: a consecutive run of integers has no duplicates. -/
theorem consecFrom_nodup : ∀ (n : Nat) (a : Int), (consecFrom a n).Nodup
  | 0, a => by simp [consecFrom]
  | n + 1, a => by
    have hcons : consecFrom a (n + 1) = a :: consecFrom (a + 1) n := rfl
    rw [hcons]
    refine List.nodup_cons.mpr ⟨?_, consecFrom_nodup n (a + 1)⟩
    rw [mem_consecFrom]
    omega

/-- Auxiliary: indexing a consecutive run of integers. -/
theorem consecFrom_getElem? :
    ∀ (n : Nat) (a : Int) (i : Nat), i < n → (consecFrom a n)[i]? = some (a + i)
  | n + 1, a, 0, _ => by
    have hcons : consecFrom a (n + 1) = a :: consecFrom (a + 1) n := rfl
    rw [hcons]
    simp
  | n + 1, a, i + 1, h => by
    have hcons : consecFrom a (n + 1) = a :: consecFrom (a + 1) n := rfl
    rw [hcons, List.getElem?_cons_succ, consecFrom_getElem? n (a + 1) i (by omega)]
    congr 1
    push_cast
    ring

/-- Auxiliary: the run-index fold of `readWorkflowTable`, against a list
of successfully parsed run numbers: it succeeds, builds `runnum2id` as
the reversed number/id pairs on top of the initial state, and moves
`runmin`/`runmax` monotonically onto members of the number list. -/
theorem readWF_fold :
    ∀ (wrows : List WRow) (nums : List Int) (st0 : WfState),
      wrows.map runNumOf = nums.map some →
      ∃ st, wrows.foldlM readWorkflowStep st0 = some st ∧
        st.runnum2id = (nums.zip (wrows.map WRow.run_id)).reverse ++ st0.runnum2id ∧
        st.numRuns = st0.numRuns ∧
        (st.runmax = st0.runmax ∨ st.runmax ∈ nums) ∧
        st0.runmax ≤ st.runmax ∧ (∀ x ∈ nums, x ≤ st.runmax) ∧
        (st.runmin = st0.runmin ∨ st.runmin ∈ nums) ∧
        st.runmin ≤ st0.runmin ∧ (∀ x ∈ nums, st.runmin ≤ x)
  | [], nums, st0 => fun hparse => by
    have hn : nums = [] := by
      cases nums with
      | nil => rfl
      | cons a t => simp at hparse
    subst hn
    exact ⟨st0, by simp, by simp, rfl, Or.inl rfl, le_refl _, by simp, Or.inl rfl,
      le_refl _, by simp⟩
  | r :: wrest, nums, st0 => fun hparse => by
    cases nums with
    | nil => simp at hparse
    | cons n nrest =>
      rw [List.map_cons, List.map_cons, List.cons_eq_cons] at hparse
      obtain ⟨h1, h2⟩ := hparse
      obtain ⟨st, hfold, hids, hnum, hmax1, hmax2, hmax3, hmin1, hmin2, hmin3⟩ :=
        readWF_fold wrest nrest
          { runid2num := (r.run_id, basename r.rundir) :: st0.runid2num,
            runnum2id := (n, r.run_id) :: st0.runnum2id,
            runmin := if n < st0.runmin then n else st0.runmin,
            runmax := if n > st0.runmax then n else st0.runmax,
            numRuns := st0.numRuns } h2
      refine ⟨st, ?_, ?_, hnum, ?_, ?_, ?_, ?_, ?_, ?_⟩
      · rw [List.foldlM_cons]
        have hstep : readWorkflowStep st0 r = some
            { runid2num := (r.run_id, basename r.rundir) :: st0.runid2num,
              runnum2id := (n, r.run_id) :: st0.runnum2id,
              runmin := if n < st0.runmin then n else st0.runmin,
              runmax := if n > st0.runmax then n else st0.runmax,
              numRuns := st0.numRuns } := by
          simp [readWorkflowStep, h1]
        rw [hstep]
        exact hfold
      · rw [hids]
        rw [List.map_cons, List.zip_cons_cons, List.reverse_cons, List.append_assoc]
        rfl
      · rcases hmax1 with h | h
        · by_cases hgt : n > st0.runmax
          · right
            rw [h]
            simp only [hgt, if_true]
            exact List.mem_cons_self n nrest
          · left
            rw [h]
            simp only [hgt, if_false]
        · right
          exact List.mem_cons_of_mem n h
      · refine le_trans ?_ hmax2
        by_cases hgt : n > st0.runmax
        · simp only [hgt, if_true]
          omega
        · simp only [hgt, if_false]
          exact le_refl _
      · intro x hx
        rcases List.mem_cons.mp hx with rfl | hx2
        · refine le_trans ?_ hmax2
          by_cases hgt : x > st0.runmax
          · simp only [hgt, if_true]
            exact le_refl _
          · simp only [hgt, if_false]
            omega
        · exact hmax3 x hx2
      · rcases hmin1 with h | h
        · by_cases hlt : n < st0.runmin
          · right
            rw [h]
            simp only [hlt, if_true]
            exact List.mem_cons_self n nrest
          · left
            rw [h]
            simp only [hlt, if_false]
        · right
          exact List.mem_cons_of_mem n h
      · refine le_trans hmin2 ?_
        by_cases hlt : n < st0.runmin
        · simp only [hlt, if_true]
          omega
        · simp only [hlt, if_false]
          exact le_refl _
      · intro x hx
        rcases List.mem_cons.mp hx with rfl | hx2
        · refine le_trans hmin2 ?_
          by_cases hlt : x < st0.runmin
          · simp only [hlt, if_true]
            exact le_refl _
          · simp only [hlt, if_false]
            omega
        · exact hmin3 x hx2

/-- Auxiliary: `readWorkflowTable` on a fully parsed table: the final
state, with `runmin`/`runmax` characterized against the number list. -/
theorem readWorkflowTable_spec (wrows : List WRow) (nums : List Int)
    (hparse : wrows.map runNumOf = nums.map some) :
    ∃ st, readWorkflowTable wrows = some st ∧
      st.runnum2id = (nums.zip (wrows.map WRow.run_id)).reverse ∧
      st.numRuns = wrows.length ∧
      (st.runmax = -1 ∨ st.runmax ∈ nums) ∧ (∀ x ∈ nums, x ≤ st.runmax) ∧
      (st.runmin = 999999999 ∨ st.runmin ∈ nums) ∧ (∀ x ∈ nums, st.runmin ≤ x) := by
  obtain ⟨st, hfold, hids, _, hmax1, _, hmax3, hmin1, _, hmin3⟩ :=
    readWF_fold wrows nums initWfState hparse
  refine ⟨{ st with numRuns := wrows.length }, ?_, ?_, rfl, hmax1, hmax3, hmin1, hmin3⟩
  · simp [readWorkflowTable, hfold]
  · simpa [initWfState] using hids

/-- Auxiliary: run numbers parsed from rundir basenames are
non-negative. -/
theorem parse_nonneg (wrows : List WRow) (nums : List Int)
    (hparse : wrows.map runNumOf = nums.map some) :
    ∀ x ∈ nums, 0 ≤ x := by
  intro x hx
  have hmem : some x ∈ wrows.map runNumOf := by
    rw [hparse]
    exact List.mem_map_of_mem some hx
  obtain ⟨r, _, hr⟩ := List.mem_map.mp hmem
  unfold runNumOf at hr
  cases hp : parseNat? (basename r.rundir) with
  | none =>
    rw [hp] at hr
    exact absurd hr (by simp)
  | some k =>
    rw [hp] at hr
    have hk : (k : Int) = x := by simpa using hr
    rw [← hk]
    exact Int.natCast_nonneg k

/-- Auxiliary: on a gapless consecutive number table, `runmax` is the
last number and `runmin` the first. -/
theorem readWF_minmax (wrows : List WRow) (a : Int) (N : Nat) (st : WfState)
    (hparse : wrows.map runNumOf = (consecFrom a N).map some)
    (hload : readWorkflowTable wrows = some st)
    (hN : 0 < N) (hsmall : a + N ≤ 999999999) :
    st.runmax = a + N - 1 ∧ st.runmin = a := by
  obtain ⟨st2, hload2, _, _, hmax1, hmax3, hmin1, hmin3⟩ :=
    readWorkflowTable_spec wrows (consecFrom a N) hparse
  rw [hload] at hload2
  obtain rfl : st = st2 := Option.some_injective _ hload2
  have hnonneg := parse_nonneg wrows (consecFrom a N) hparse
  have hamem : a ∈ consecFrom a N := by
    rw [mem_consecFrom]
    omega
  have hlastmem : a + N - 1 ∈ consecFrom a N := by
    rw [mem_consecFrom]
    omega
  have ha0 : 0 ≤ a := hnonneg a hamem
  constructor
  · rcases hmax1 with h | h
    · have := hmax3 (a + N - 1) hlastmem
      omega
    · have hub := (mem_consecFrom N a st.runmax).mp h
      have := hmax3 (a + N - 1) hlastmem
      omega
  · rcases hmin1 with h | h
    · have := hmin3 a hamem
      omega
    · have hub := (mem_consecFrom N a st.runmin).mp h
      have := hmin3 a hamem
      omega

/-- Auxiliary: looking up a run number in the reversed `runnum2id` pairs
finds the id of the first table row carrying that number, provided the
numbers are duplicate-free. -/
theorem zip_lookup_find :
    ∀ (wrows : List WRow) (nums : List Int),
      wrows.map runNumOf = nums.map some → nums.Nodup →
      ∀ n : Int,
        dictLookup ((nums.zip (wrows.map WRow.run_id)).reverse) n =
          (wrows.find? (fun r => runNumOf r == some n)).map WRow.run_id
  | [], nums, hparse, _, n => by
    have hn : nums = [] := by
      cases nums with
      | nil => rfl
      | cons a t => simp at hparse
    subst hn
    simp [dictLookup]
  | r :: wrest, nums, hparse, hnd, n => by
    cases nums with
    | nil => simp at hparse
    | cons n0 nrest =>
      rw [List.map_cons, List.map_cons, List.cons_eq_cons] at hparse
      obtain ⟨h1, h2⟩ := hparse
      have hnd2 := List.nodup_cons.mp hnd
      rw [List.map_cons, List.zip_cons_cons, List.reverse_cons]
      unfold dictLookup
      rw [find?_append_or]
      have hIH := zip_lookup_find wrest nrest h2 hnd2.2 n
      unfold dictLookup at hIH
      by_cases hn : n = n0
      · subst hn
        have hA : (nrest.zip (wrest.map WRow.run_id)).reverse.find?
            (fun p => p.1 == n) = none := by
          rw [List.find?_eq_none]
          intro p hp hc
          have hp2 : p ∈ nrest.zip (wrest.map WRow.run_id) := by
            rw [← List.mem_reverse]
            exact hp
          have hfst : p.1 ∈ nrest := (List.of_mem_zip hp2).1
          rw [show p.1 = n from by simpa using hc] at hfst
          exact hnd2.1 hfst
        have hpred : (runNumOf r == some n) = true := by
          simp [h1]
        rw [hA]
        simp [List.find?_cons, hpred, Option.orElse]
      · have hb1 : ((n0 : Int) == n) = false := by
          rw [beq_eq_false_iff_ne]
          exact fun e => hn e.symm
        have hpred : (runNumOf r == some n) = false := by
          rw [h1, beq_eq_false_iff_ne]
          intro hc
          exact hn (by simpa using hc.symm)
        have hsingle : (List.find? (fun p => p.1 == n) [((n0 : Int), r.run_id)]) = none := by
          simp [List.find?_cons, hb1]
        rw [hsingle]
        have horelse : ∀ (o : Option (Int × String)),
            (Option.orElse o (fun _ => (none : Option (Int × String)))) = o := by
          intro o
          cases o with
          | none => rfl
          | some p => rfl
        rw [horelse, hIH]
        have hrhs : (r :: wrest).find? (fun x => runNumOf x == some n) =
            wrest.find? (fun x => runNumOf x == some n) := by
          rw [List.find?_cons]
          simp [hpred]
        rw [hrhs]

/-- Auxiliary: Python indexing with a non-negative index is plain list
indexing. -/
theorem pyIdx_natCast {α : Type} (l : List α) (i : Nat) :
    pyIdx l (i : Int) = l[i]? := by
  simp only [pyIdx]
  split_ifs with h1 h2 h2
  · exact absurd h1 (by omega)
  · exact absurd h1 (by omega)
  · rw [List.getElem?_eq_getElem (by omega : i < l.length)]
    have hi : ((i : Int)).toNat = i := Int.toNat_natCast i
    simp [List.get_eq_getElem, hi]
  · rw [List.getElem?_eq_none (by omega)]

/-- Auxiliary: Python indexing with `-1` returns the last element. -/
theorem pyIdx_neg_one {α : Type} (l : List α) (h : l ≠ []) :
    pyIdx l (-1) = some (l.getLast h) := by
  have hlen : 0 < l.length := List.length_pos.mpr h
  simp only [pyIdx]
  split_ifs with h1 h2 h2
  · have hidx : ((-1 : Int) + l.length).toNat = l.length - 1 := by omega
    rw [List.getLast_eq_getElem]
    simp [List.get_eq_getElem, hidx]
  · exact absurd h2 (by omega)
  · exact absurd h1 (by omega)
  · exact absurd h1 (by omega)

/-- Auxiliary: `selectRunID`'s row scan finds a present row (under
duplicate-free run ids), and indexing with the found index returns it. -/
theorem findRunRow_mem :
    ∀ (wrows : List WRow), (wrows.map WRow.run_id).Nodup →
      ∀ r ∈ wrows,
        ∃ i : Nat, findRunRow r.run_id wrows = some i ∧
          pyIdx wrows (i : Int) = some r
  | [], _, r, hr => by simp at hr
  | w :: rest, hnd, r, hr => by
    have hnd2 : (w.run_id :: rest.map WRow.run_id).Nodup := by simpa using hnd
    by_cases h : w.run_id = r.run_id
    · have hrw : r = w := by
        rcases List.mem_cons.mp hr with h1 | h1
        · exact h1
        · exfalso
          apply (List.nodup_cons.mp hnd2).1
          rw [h]
          exact List.mem_map_of_mem WRow.run_id h1
      subst hrw
      refine ⟨0, ?_, ?_⟩
      · simp [findRunRow]
      · rw [pyIdx_natCast]
        simp
    · have hb : (w.run_id == r.run_id) = false := beq_eq_false_iff_ne.mpr h
      have hmem : r ∈ rest := by
        rcases List.mem_cons.mp hr with h1 | h1
        · exact absurd (by rw [h1]) h
        · exact h1
      obtain ⟨i, hfi, hpi⟩ :=
        findRunRow_mem rest (List.nodup_cons.mp hnd2).2 r hmem
      refine ⟨i + 1, ?_, ?_⟩
      · simp [findRunRow, hb, hfi]
      · rw [pyIdx_natCast] at hpi ⊢
        simpa [List.getElem?_cons_succ] using hpi

/-- Auxiliary: the run numbers `runview` assigns are the consecutive
integers from its starting index. -/
theorem runviewFrom_map :
    ∀ (ids : List String) (k : Int),
      (runviewFrom k ids).map WRow2.runnum = consecFrom k ids.length
  | [], k => rfl
  | id :: rest, k => by
    have hcons : consecFrom k (rest.length + 1) = k :: consecFrom (k + 1) rest.length := rfl
    simp [runviewFrom, List.length_cons, hcons, runviewFrom_map rest (k + 1)]

/-- Auxiliary: min/max bookkeeping of wstat2's `loadWorkflowTable` fold. -/
theorem load2_fold :
    ∀ (rows : List WRow2) (st0 : WfState2),
      ((rows.foldl loadWorkflowStep2 st0).runmax = st0.runmax ∨
        (rows.foldl loadWorkflowStep2 st0).runmax ∈ rows.map WRow2.runnum) ∧
      st0.runmax ≤ (rows.foldl loadWorkflowStep2 st0).runmax ∧
      (∀ x ∈ rows.map WRow2.runnum, x ≤ (rows.foldl loadWorkflowStep2 st0).runmax) ∧
      ((rows.foldl loadWorkflowStep2 st0).runmin = st0.runmin ∨
        (rows.foldl loadWorkflowStep2 st0).runmin ∈ rows.map WRow2.runnum) ∧
      (rows.foldl loadWorkflowStep2 st0).runmin ≤ st0.runmin ∧
      (∀ x ∈ rows.map WRow2.runnum, (rows.foldl loadWorkflowStep2 st0).runmin ≤ x)
  | [], st0 => by
    exact ⟨Or.inl rfl, le_refl _, by simp, Or.inl rfl, le_refl _, by simp⟩
  | r :: rest, st0 => by
    obtain ⟨hmax1, hmax2, hmax3, hmin1, hmin2, hmin3⟩ :=
      load2_fold rest (loadWorkflowStep2 st0 r)
    have hsmax : (loadWorkflowStep2 st0 r).runmax =
        (if r.runnum > st0.runmax then r.runnum else st0.runmax) := rfl
    have hsmin : (loadWorkflowStep2 st0 r).runmin =
        (if r.runnum < st0.runmin then r.runnum else st0.runmin) := rfl
    rw [List.foldl_cons, List.map_cons]
    refine ⟨?_, ?_, ?_, ?_, ?_, ?_⟩
    · rcases hmax1 with h | h
      · rw [h, hsmax]
        by_cases hgt : r.runnum > st0.runmax
        · right
          simp only [hgt, if_true]
          exact List.mem_cons_self _ _
        · left
          simp only [hgt, if_false]
      · right
        exact List.mem_cons_of_mem _ h
    · refine le_trans ?_ hmax2
      rw [hsmax]
      by_cases hgt : r.runnum > st0.runmax
      · simp only [hgt, if_true]
        omega
      · simp only [hgt, if_false]
        exact le_refl _
    · intro x hx
      rcases List.mem_cons.mp hx with rfl | hx2
      · refine le_trans ?_ hmax2
        rw [hsmax]
        by_cases hgt : r.runnum > st0.runmax
        · simp only [hgt, if_true]
          exact le_refl _
        · simp only [hgt, if_false]
          omega
      · exact hmax3 x hx2
    · rcases hmin1 with h | h
      · rw [h, hsmin]
        by_cases hlt : r.runnum < st0.runmin
        · right
          simp only [hlt, if_true]
          exact List.mem_cons_self _ _
        · left
          simp only [hlt, if_false]
      · right
        exact List.mem_cons_of_mem _ h
    · refine le_trans hmin2 ?_
      rw [hsmin]
      by_cases hlt : r.runnum < st0.runmin
      · simp only [hlt, if_true]
        omega
      · simp only [hlt, if_false]
        exact le_refl _
    · intro x hx
      rcases List.mem_cons.mp hx with rfl | hx2
      · refine le_trans hmin2 ?_
        rw [hsmin]
        by_cases hlt : r.runnum < st0.runmin
        · simp only [hlt, if_true]
          exact le_refl _
        · simp only [hlt, if_false]
          omega
      · exact hmin3 x hx2

/-- C6 amended: in wstat.py the run numbers are whatever integers the
rundir basenames carry - the code only guarantees that `runmin`/`runmax`
are their extremes (for run numbers below the 999999999 sentinel) - so
the strictly-increasing gapless-from-1 shape is a property of the data,
not enforced (see the counterexample); in wstat2.py, whose `runview`
view is modelled from the spec (`makeViews.sql` is not in the
repository), the assigned numbers in ascending start-time order are
exactly `1..N`, and `loadWorkflowTable` computes `runmax = N` and
`runmin = 1` for a non-empty table. -/
theorem C6_runIndex_amended (wrows : List WRow) (nums : List Int) (st : WfState)
    (hparse : wrows.map runNumOf = nums.map some)
    (hload : readWorkflowTable wrows = some st)
    (hne : nums ≠ [])
    (hsmall : ∀ x ∈ nums, x < 999999999) :
    (st.runmax ∈ nums ∧ ∀ x ∈ nums, x ≤ st.runmax) ∧
    (st.runmin ∈ nums ∧ ∀ x ∈ nums, st.runmin ≤ x) ∧
    (∀ ids : List String, (runview ids).map WRow2.runnum = consecFrom 1 ids.length) ∧
    (∀ ids : List String, ids ≠ [] →
      (loadWorkflowTable2 (runview ids)).runmax = (ids.length : Int) ∧
      (loadWorkflowTable2 (runview ids)).runmin = 1) := by
  obtain ⟨st2, hload2, _, _, hmax1, hmax3, hmin1, hmin3⟩ :=
    readWorkflowTable_spec wrows nums hparse
  rw [hload] at hload2
  obtain rfl : st = st2 := Option.some_injective _ hload2
  have hnonneg := parse_nonneg wrows nums hparse
  obtain ⟨x0, hx0⟩ := List.exists_mem_of_ne_nil nums hne
  refine ⟨⟨?_, hmax3⟩, ⟨?_, hmin3⟩, ?_, ?_⟩
  · rcases hmax1 with h | h
    · have h1 := hmax3 x0 hx0
      have h2 := hnonneg x0 hx0
      omega
    · exact h
  · rcases hmin1 with h | h
    · have h1 := hmin3 x0 hx0
      have h2 := hsmall x0 hx0
      omega
    · exact h
  · intro ids
    exact runviewFrom_map ids 1
  · intro ids hids
    have hlen : 0 < ids.length := List.length_pos.mpr hids
    obtain ⟨qmax1, _, qmax3, qmin1, _, qmin3⟩ :=
      load2_fold (runview ids)
        { runid2num := [], runnum2id := [], runmin := 999999999, runmax := -1, numRuns := 0 }
    have hrv : (runview ids).map WRow2.runnum = consecFrom 1 ids.length :=
      runviewFrom_map ids 1
    rw [hrv] at qmax1 qmax3 qmin1 qmin3
    have hi1 : ({ runid2num := [], runnum2id := [], runmin := 999999999, runmax := -1, numRuns := 0 } : WfState2).runmax = -1 := rfl
    have hi2 : ({ runid2num := [], runnum2id := [], runmin := 999999999, runmax := -1, numRuns := 0 } : WfState2).runmin = 999999999 := rfl
    rw [hi1] at qmax1
    rw [hi2] at qmin1
    have hLmem : (ids.length : Int) ∈ consecFrom 1 ids.length := by
      rw [mem_consecFrom]
      omega
    have h1mem : (1 : Int) ∈ consecFrom 1 ids.length := by
      rw [mem_consecFrom]
      omega
    have hrmax : (loadWorkflowTable2 (runview ids)).runmax =
        ((runview ids).foldl loadWorkflowStep2
          { runid2num := [], runnum2id := [], runmin := 999999999, runmax := -1, numRuns := 0 }).runmax := rfl
    have hrmin : (loadWorkflowTable2 (runview ids)).runmin =
        ((runview ids).foldl loadWorkflowStep2
          { runid2num := [], runnum2id := [], runmin := 999999999, runmax := -1, numRuns := 0 }).runmin := rfl
    rw [hrmax, hrmin]
    constructor
    · rcases qmax1 with h | h
      · have := qmax3 (ids.length : Int) hLmem
        omega
      · have hb := (mem_consecFrom ids.length 1 _).mp h
        have := qmax3 (ids.length : Int) hLmem
        omega
    · rcases qmin1 with h | h
      · have := qmin3 1 h1mem
        omega
      · have hb := (mem_consecFrom ids.length 1 _).mp h
        have := qmin3 1 h1mem
        omega

/-- C6 witness: the amended run-index facts instantiated on the concrete
two-run table `wRowsA` (rundirs `runinfo/1`, `runinfo/2` in start-time
order) whose loaded state is `wStA`. -/
theorem C6_runIndex_witness :
    (wStA.runmax ∈ [(1 : Int), 2] ∧ ∀ x ∈ [(1 : Int), 2], x ≤ wStA.runmax) ∧
    (wStA.runmin ∈ [(1 : Int), 2] ∧ ∀ x ∈ [(1 : Int), 2], wStA.runmin ≤ x) ∧
    (∀ ids : List String, (runview ids).map WRow2.runnum = consecFrom 1 ids.length) ∧
    (∀ ids : List String, ids ≠ [] →
      (loadWorkflowTable2 (runview ids)).runmax = (ids.length : Int) ∧
      (loadWorkflowTable2 (runview ids)).runmin = 1) :=
  C6_runIndex_amended wRowsA [1, 2] wStA (by decide) (by decide) (by decide) (by decide)

/-- C3: under the spec's run-table invariant - the parsed run numbers
form a gapless consecutive block (below the 999999999 sentinel of the
`runmin` initialization) and the run ids are distinct - resolving `None`
returns the last (most recent) row, whose run number is `runmax`;
a requested number outside `[runmin, runmax]` is rejected by the
`__main__` guard (`wstatMain`) before any report function, hence any
task-level query, runs; and a requested number inside the range resolves
to exactly one row, whose run number equals the request. -/
theorem C3_run_resolution (wrows : List WRow) (st : WfState) (a : Int) (N : Nat)
    (hparse : wrows.map runNumOf = (consecFrom a N).map some)
    (hload : readWorkflowTable wrows = some st)
    (hN : 0 < N)
    (hsmall : a + N ≤ 999999999)
    (hids : (wrows.map WRow.run_id).Nodup) :
    (∃ lastRow, resolveRun wrows st none = some lastRow ∧
       runNumOf lastRow = some st.runmax) ∧
    (∀ n : Int, (n > st.runmax ∨ n < st.runmin) →
       wstatMain st (some n) = MainResult.runNotFound) ∧
    (∀ n : Int, st.runmin ≤ n → n ≤ st.runmax →
       ∃ row, resolveRun wrows st (some n) = some row ∧ runNumOf row = some n ∧
         ∀ r ∈ wrows, runNumOf r = some n → r = row) := by
  obtain ⟨hmax, hmin⟩ := readWF_minmax wrows a N st hparse hload hN hsmall
  have hlen : wrows.length = N := by
    have h := congrArg List.length hparse
    simpa [consecFrom_length] using h
  have hne : wrows ≠ [] := by
    intro e
    rw [e] at hlen
    simp at hlen
    omega
  refine ⟨?_, ?_, ?_⟩
  · refine ⟨wrows.getLast hne, ?_, ?_⟩
    · have hres : resolveRun wrows st none = pyIdx wrows (-1) := rfl
      rw [hres, pyIdx_neg_one wrows hne]
    · have hm : (wrows.map runNumOf)[wrows.length - 1]? =
          ((consecFrom a N).map some)[wrows.length - 1]? := by
        rw [hparse]
      rw [List.getElem?_map, List.getElem?_map] at hm
      have hw : wrows[wrows.length - 1]? =
          some (wrows.getLast hne) := by
        rw [List.getLast_eq_getElem]
        exact List.getElem?_eq_getElem (by omega)
      have hc : (consecFrom a N)[wrows.length - 1]? = some (a + ((N - 1 : Nat) : Int)) := by
        rw [hlen]
        exact consecFrom_getElem? N a (N - 1) (by omega)
      rw [hw, hc] at hm
      simp only [Option.map_some'] at hm
      have hm2 : runNumOf (wrows.getLast hne) = some (a + ((N - 1 : Nat) : Int)) :=
        Option.some_injective _ hm
      rw [hm2, hmax]
      congr 1
      omega
  · intro n hn
    simp only [wstatMain]
    rw [if_pos (by simp only [Bool.or_eq_true, decide_eq_true_eq]; exact hn)]
  · intro n h1 h2
    rw [hmin] at h1
    rw [hmax] at h2
    have hmem : n ∈ consecFrom a N := by
      rw [mem_consecFrom]
      omega
    have hex : ∃ r ∈ wrows, (runNumOf r == some n) = true := by
      have hsn : some n ∈ wrows.map runNumOf := by
        rw [hparse]
        exact List.mem_map_of_mem some hmem
      obtain ⟨r, hrmem, hr⟩ := List.mem_map.mp hsn
      exact ⟨r, hrmem, by simp [hr]⟩
    have hfs : (wrows.find? (fun r => runNumOf r == some n)).isSome = true := by
      rw [List.find?_isSome]
      exact hex
    obtain ⟨row, hrow⟩ := Option.isSome_iff_exists.mp hfs
    have hrowmem : row ∈ wrows := List.mem_of_find?_eq_some hrow
    have hrownum : runNumOf row = some n := by
      have h := List.find?_some hrow
      simpa using h
    obtain ⟨st2, hload2, hn2id, _, _, _, _, _⟩ :=
      readWorkflowTable_spec wrows (consecFrom a N) hparse
    rw [hload] at hload2
    obtain rfl : st = st2 := Option.some_injective _ hload2
    have hlk : dictLookup st.runnum2id n = some row.run_id := by
      rw [hn2id, zip_lookup_find wrows (consecFrom a N) hparse (consecFrom_nodup N a) n,
        hrow]
      rfl
    obtain ⟨i, hfi, hpi⟩ := findRunRow_mem wrows hids row hrowmem
    have hsel : selectRunID wrows st.runnum2id (some n) = some ((i : Nat) : Int) := by
      simp [selectRunID, hlk, hfi]
    refine ⟨row, ?_, hrownum, ?_⟩
    · show (selectRunID wrows st.runnum2id (some n)).bind (pyIdx wrows) = some row
      rw [hsel]
      simpa using hpi
    · intro r hrmem2 hrnum2
      have hmn : (wrows.map runNumOf).Nodup := by
        rw [hparse]
        exact (consecFrom_nodup N a).map (Option.some_injective Int)
      exact List.inj_on_of_nodup_map hmn hrmem2 hrowmem (by rw [hrnum2, hrownum])

/-- C3 witness: the run-resolution facts instantiated on the concrete
two-run table `wRowsA` with numbers `1, 2` and loaded state `wStA`. -/
theorem C3_run_resolution_witness :
    (∃ lastRow, resolveRun wRowsA wStA none = some lastRow ∧
       runNumOf lastRow = some wStA.runmax) ∧
    (∀ n : Int, (n > wStA.runmax ∨ n < wStA.runmin) →
       wstatMain wStA (some n) = MainResult.runNotFound) ∧
    (∀ n : Int, wStA.runmin ≤ n → n ≤ wStA.runmax →
       ∃ row, resolveRun wRowsA wStA (some n) = some row ∧ runNumOf row = some n ∧
         ∀ r ∈ wRowsA, runNumOf r = some n → r = row) :=
  C3_run_resolution wRowsA wStA 1 2 (by decide) (by decide) (by decide) (by decide)
    (by decide)
